import Mathlib

set_option maxHeartbeats 1000000

/-!
Shallow embedding of the AoC 2025 agent controller: the day-gating and
CLI-argument logic of src/agent/main.ts, the configuration constants and
JSON state persistence of src/agent/config.ts, and the submission retry
policy that the repository states for its submission-handler agent.
-/

/-- Constant AOC_YEAR from config.ts. -/
def AOC_YEAR : Int := 2025

/-- Constant AOC_START_DAY from config.ts. -/
def AOC_START_DAY : Int := 1

/-- Constant AOC_END_DAY from config.ts (AoC 2025 only runs for 12 days). -/
def AOC_END_DAY : Int := 12

/-- Constant MAX_RETRIES from config.ts. -/
def MAX_RETRIES : Nat := 3

/-- Constant MAX_SUBMISSION_ATTEMPTS from config.ts. -/
def MAX_SUBMISSION_ATTEMPTS : Nat := 5

/-- Whitespace accepted by JavaScript before a number in parseInt
    (the common ASCII whitespace characters). -/
def isJsSpace (c : Char) : Bool :=
  c = ' ' || c = '\t' || c = '\n' || c = '\r' || c = '\x0b' || c = '\x0c'

/-- Decimal digit test. -/
def isDigit10 (c : Char) : Bool :=
  48 ≤ c.toNat && c.toNat ≤ 57

/-- Hexadecimal digit test (JavaScript parseInt with an 0x prefix). -/
def isHexDigitJS (c : Char) : Bool :=
  isDigit10 c || (97 ≤ c.toNat && c.toNat ≤ 102) || (65 ≤ c.toNat && c.toNat ≤ 70)

/-- Numeric value of a hexadecimal digit. -/
def hexVal (c : Char) : Nat :=
  if isDigit10 c then c.toNat - 48
  else if 97 ≤ c.toNat && c.toNat ≤ 102 then c.toNat - 87
  else c.toNat - 55

/-- Value of a list of decimal digit characters, most significant first. -/
def digitsToNat (cs : List Char) : Nat :=
  cs.foldl (fun a c => a * 10 + (c.toNat - 48)) 0

/-- Value of a list of hexadecimal digit characters, most significant first. -/
def hexToNat (cs : List Char) : Nat :=
  cs.foldl (fun a c => a * 16 + hexVal c) 0

/-- Model of JavaScript parseInt(s) with no radix argument, as used by
    parseArgs in main.ts: skip leading whitespace, read an optional sign,
    treat an 0x or 0X prefix as hexadecimal, otherwise read leading decimal
    digits; the result is NaN (modelled by none) when no digit follows. -/
def parseIntJS (s : String) : Option Int :=
  let cs0 := s.data.dropWhile isJsSpace
  let sign : Int := match cs0 with | '-' :: _ => -1 | _ => 1
  let cs1 := match cs0 with | '-' :: r => r | '+' :: r => r | _ => cs0
  match cs1 with
  | '0' :: 'x' :: r =>
      let ds := r.takeWhile isHexDigitJS
      if ds = [] then none else some (sign * (hexToNat ds : Int))
  | '0' :: 'X' :: r =>
      let ds := r.takeWhile isHexDigitJS
      if ds = [] then none else some (sign * (hexToNat ds : Int))
  | _ =>
      let ds := cs1.takeWhile isDigit10
      if ds = [] then none else some (sign * (digitsToNat ds : Int))

/-- Parsed command-line arguments (interface CLIArgs in main.ts).
    The day field models the JavaScript number slot: the outer Option is
    whether result.day was ever assigned, the inner Option is the parseInt
    result with none standing for NaN. -/
structure CLIArgs where
  day : Option (Option Int) := none
  dryRun : Bool := false
  debug : Bool := false
  force : Bool := false
deriving Repr, DecidableEq

/-- The argument loop of parseArgs in main.ts. A "--day" whose following
    token exists and is nonempty consumes that token as the day; otherwise
    "--day" itself is skipped like any unrecognized "--" flag, and any token
    not starting with "--" is parsed as the day. -/
def parseArgsLoop : List String → CLIArgs → CLIArgs
  | [], r => r
  | "--day" :: b :: rest, r =>
      if b ≠ "" then parseArgsLoop rest { r with day := some (parseIntJS b) }
      else parseArgsLoop (b :: rest) r
  | a :: rest, r =>
      if a = "--dry-run" then parseArgsLoop rest { r with dryRun := true }
      else if a = "--debug" then parseArgsLoop rest { r with debug := true }
      else if a = "--force" then parseArgsLoop rest { r with force := true }
      else if a.startsWith "--" then parseArgsLoop rest r
      else parseArgsLoop rest { r with day := some (parseIntJS a) }

/-- parseArgs from main.ts, applied to the argument vector after the
    first two process arguments. -/
def parseArgs (argv : List String) : CLIArgs :=
  parseArgsLoop argv {}

/-- isAoC2025Active from config.ts, as a function of the current
    year, month and day-of-month in the America/New_York timezone. -/
def isAoC2025Active (year month day : Int) : Bool :=
  if year ≠ AOC_YEAR then false
  else if month ≠ 12 then false
  else if day < AOC_START_DAY ∨ day > AOC_END_DAY then false
  else true

/-- Result of the day-selection and day-validation phase of main():
    run day (continue the workflow with this day), skipWindow
    (process.exit(0) because the active window check failed in auto-detect
    mode), or invalidDay (process.exit(1) from the 1..25 validation). -/
inductive SelectOutcome where
  | run (day : Int)
  | skipWindow
  | invalidDay (day : Int)
deriving Repr, DecidableEq

/-- The auto-detect branch of main(): strict date validation via
    isAoC2025Active, then day := getCurrentDayEST(), then the 1..25
    validation shared by both branches. -/
def autoDetect (year month day : Int) : SelectOutcome :=
  if ¬ isAoC2025Active year month day then .skipWindow
  else if day < 1 ∨ day > 25 then .invalidDay day
  else .run day

/-- Day selection in main() (lines choosing between args.day and
    auto-detect, followed by the day validation). The JavaScript truthiness
    test if (args.day) sends an unassigned day, a NaN day and a zero day to
    the auto-detect branch; a truthy explicit day skips the window check
    (only a warning is printed) and goes straight to the 1..25 validation. -/
def selectDay (argsDay : Option (Option Int)) (year month day : Int) : SelectOutcome :=
  match argsDay with
  | some (some n) =>
      if n ≠ 0 then
        (if n < 1 ∨ n > 25 then .invalidDay n else .run n)
      else autoDetect year month day
  | _ => autoDetect year month day

/-- JSON values, restricted to the fragment this program reads and writes:
    numbers are integers. A JSON document itself never carries NaN or an
    infinity: JSON.stringify writes null in place of a non-finite number
    and JSON.parse never produces one, so those values live in the state
    model (JSNum below), not here; finite non-integer numbers are outside
    the modelled fragment. -/
inductive Json where
  | null
  | bool (flag : Bool)
  | num (intVal : Int)
  | str (text : String)
  | arr (items : List Json)
  | obj (fields : List (String × Json))
deriving Repr

/-- The opening brace character. -/
def lbrace : Char := Char.ofNat 123

/-- The closing brace character. -/
def rbrace : Char := Char.ofNat 125

/-- Indentation emitted by JSON.stringify with gap 2 at nesting depth n. -/
def indentChars (n : Nat) : List Char :=
  List.replicate (2 * n) ' '

/-- Lower-case hexadecimal digit for a value below 16. -/
def hexDigitChar (n : Nat) : Char :=
  if n < 10 then Char.ofNat (48 + n) else Char.ofNat (87 + n)

/-- Escaping of one character inside a JSON string, as JSON.stringify does:
    quote and backslash get a backslash escape, the five control characters
    with short forms use them, the remaining control characters use a
    lower-case u00 escape, and every other character is emitted as is. -/
def escapeChar (c : Char) : List Char :=
  if c = '"' then ['\\', '"']
  else if c = '\\' then ['\\', '\\']
  else if c = '\x08' then ['\\', 'b']
  else if c = '\x0c' then ['\\', 'f']
  else if c = '\n' then ['\\', 'n']
  else if c = '\r' then ['\\', 'r']
  else if c = '\t' then ['\\', 't']
  else if c.toNat < 32 then
    ['\\', 'u', '0', '0', hexDigitChar (c.toNat / 16), hexDigitChar (c.toNat % 16)]
  else [c]

/-- Escaping of a whole string body. -/
def escapeStr (cs : List Char) : List Char :=
  (cs.map escapeChar).flatten

/-- Character of a decimal digit value. -/
def digitChar10 (d : Nat) : Char :=
  Char.ofNat (48 + d)

/-- Decimal digit characters of a positive natural number,
    most significant first. -/
def natDigits (n : Nat) : List Char :=
  ((Nat.digits 10 n).reverse).map digitChar10

/-- Decimal rendering of a natural number. -/
def natRepr (n : Nat) : List Char :=
  if n = 0 then ['0'] else natDigits n

/-- Decimal rendering of an integer, as JSON.stringify renders the
    integer-valued numbers appearing in the day states. -/
def intRepr (n : Int) : List Char :=
  if n < 0 then '-' :: natRepr n.natAbs else natRepr n.natAbs

mutual

/-- Rendering of a JSON value by JSON.stringify(v, null, 2) at nesting
    depth ind: objects and arrays with at least one entry print one entry
    per line, indented two spaces further than their parent. -/
def renderJson (ind : Nat) : Json → List Char
  | .null => ['n', 'u', 'l', 'l']
  | .bool flag =>
      if flag then ['t', 'r', 'u', 'e'] else ['f', 'a', 'l', 's', 'e']
  | .num n => intRepr n
  | .str s => '"' :: (escapeStr s.data ++ ['"'])
  | .arr [] => ['[', ']']
  | .arr (x :: xs) =>
      '[' :: '\n' :: (indentChars (ind + 1) ++
        (renderElems (ind + 1) x xs ++ ('\n' :: (indentChars ind ++ [']']))))
  | .obj [] => [lbrace, rbrace]
  | .obj (m :: ms) =>
      lbrace :: '\n' :: (indentChars (ind + 1) ++
        (renderMembers (ind + 1) m ms ++ ('\n' :: (indentChars ind ++ [rbrace]))))
termination_by j => sizeOf j

/-- Rendering of a nonempty list of array elements at depth ind; the
    caller emits the indentation of the first element, and each subsequent
    element starts on its own indented line. -/
def renderElems (ind : Nat) : Json → List Json → List Char
  | x, [] => renderJson ind x
  | x, y :: ys =>
      renderJson ind x ++ (',' :: '\n' :: (indentChars ind ++ renderElems ind y ys))
termination_by x xs => sizeOf x + sizeOf xs

/-- Rendering of a nonempty list of object members at depth ind; the
    caller emits the indentation of the first member. -/
def renderMembers (ind : Nat) : (String × Json) → List (String × Json) → List Char
  | (k, v), [] =>
      '"' :: (escapeStr k.data ++ ('"' :: ':' :: ' ' :: renderJson ind v))
  | (k, v), m :: ms =>
      ('"' :: (escapeStr k.data ++ ('"' :: ':' :: ' ' :: renderJson ind v))) ++
        (',' :: '\n' :: (indentChars ind ++ renderMembers ind m ms))
termination_by m ms => sizeOf m + sizeOf ms

end

/-- Whitespace that JSON.parse skips between tokens. -/
def jsonWs (c : Char) : Bool :=
  c = ' ' || c = '\t' || c = '\n' || c = '\r'

/-- Skip inter-token whitespace. -/
def skipWs (cs : List Char) : List Char :=
  cs.dropWhile jsonWs

/-- Body of a JSON string after its opening quote: returns the decoded
    characters and the input after the closing quote. Backslash escapes
    follow the JSON grammar; a u escape is accepted when its code point is
    a valid (non-surrogate) character, and raw control characters are
    rejected as JSON.parse rejects them. -/
def parseStringBody : List Char → Option (List Char × List Char)
  | [] => none
  | c :: rest =>
    if c = '"' then some ([], rest)
    else if c = '\\' then
      match rest with
      | [] => none
      | e :: r2 =>
        if e = '"' then (parseStringBody r2).map (fun p => ('"' :: p.1, p.2))
        else if e = '\\' then (parseStringBody r2).map (fun p => ('\\' :: p.1, p.2))
        else if e = '/' then (parseStringBody r2).map (fun p => ('/' :: p.1, p.2))
        else if e = 'b' then (parseStringBody r2).map (fun p => ('\x08' :: p.1, p.2))
        else if e = 'f' then (parseStringBody r2).map (fun p => ('\x0c' :: p.1, p.2))
        else if e = 'n' then (parseStringBody r2).map (fun p => ('\n' :: p.1, p.2))
        else if e = 'r' then (parseStringBody r2).map (fun p => ('\r' :: p.1, p.2))
        else if e = 't' then (parseStringBody r2).map (fun p => ('\t' :: p.1, p.2))
        else if e = 'u' then
          match r2 with
          | h1 :: h2 :: h3 :: h4 :: r3 =>
            if isHexDigitJS h1 && isHexDigitJS h2 && isHexDigitJS h3 && isHexDigitJS h4 then
              let n := hexToNat [h1, h2, h3, h4]
              if n < 55296 ∨ 57344 ≤ n then
                (parseStringBody r3).map (fun p => (Char.ofNat n :: p.1, p.2))
              else none
            else none
          | _ => none
        else none
    else if c.toNat < 32 then none
    else (parseStringBody rest).map (fun p => (c :: p.1, p.2))

/-- Head of the input is a decimal digit. -/
def headIsDigit : List Char → Bool
  | c :: _ => isDigit10 c
  | [] => false

/-- Head of the input would continue a number (digit, decimal point or
    exponent marker). The model stops at the integer fragment that the
    day states use: a fractional or exponent continuation is rejected. -/
def headIsNumCont : List Char → Bool
  | c :: _ => isDigit10 c || c = '.' || c = 'e' || c = 'E'
  | [] => false

/-- Unsigned integer part of a JSON number: a lone 0, or a nonzero digit
    followed by further digits (JSON rejects leading zeros). -/
def parseNatCore (cs : List Char) : Option (Nat × List Char) :=
  match cs with
  | c :: r =>
    if c = '0' then (if headIsDigit r then none else some (0, r))
    else if isDigit10 c then
      some (digitsToNat ((c :: r).takeWhile isDigit10), (c :: r).dropWhile isDigit10)
    else none
  | [] => none

/-- JSON number in the integer fragment: optional minus sign, then an
    integer part not followed by a fractional or exponent continuation. -/
def parseNumber (cs : List Char) : Option (Int × List Char) :=
  match cs with
  | c :: r =>
    if c = '-' then
      match parseNatCore r with
      | some (n, rest) => if headIsNumCont rest then none else some (-(n : Int), rest)
      | none => none
    else
      match parseNatCore (c :: r) with
      | some (n, rest) => if headIsNumCont rest then none else some ((n : Int), rest)
      | none => none
  | [] => none

mutual

/-- Fuel-indexed model of JSON.parse on one value: skip whitespace, then
    dispatch on the first character. Returns the value and the unconsumed
    input. -/
def parseValue : Nat → List Char → Option (Json × List Char)
  | 0, _ => none
  | fuel + 1, cs =>
    match skipWs cs with
    | [] => none
    | c :: r =>
      if c = 'n' then
        match r with
        | 'u' :: 'l' :: 'l' :: r2 => some (.null, r2)
        | _ => none
      else if c = 't' then
        match r with
        | 'r' :: 'u' :: 'e' :: r2 => some (.bool true, r2)
        | _ => none
      else if c = 'f' then
        match r with
        | 'a' :: 'l' :: 's' :: 'e' :: r2 => some (.bool false, r2)
        | _ => none
      else if c = '"' then
        (parseStringBody r).map (fun p => (.str (String.mk p.1), p.2))
      else if c = lbrace then
        match skipWs r with
        | d :: r2 =>
          if d = rbrace then some (.obj [], r2)
          else (parseMembers fuel (d :: r2)).map (fun p => (.obj p.1, p.2))
        | [] => none
      else if c = '[' then
        match skipWs r with
        | d :: r2 =>
          if d = ']' then some (.arr [], r2)
          else (parseElems fuel (d :: r2)).map (fun p => (.arr p.1, p.2))
        | [] => none
      else if c = '-' || isDigit10 c then
        (parseNumber (c :: r)).map (fun p => (.num p.1, p.2))
      else none

/-- Members of a JSON object after its opening brace and any whitespace:
    a quoted key, a colon, a value, then either a comma and further members
    or the closing brace. -/
def parseMembers : Nat → List Char → Option (List (String × Json) × List Char)
  | 0, _ => none
  | fuel + 1, cs =>
    match cs with
    | c :: r =>
      if c = '"' then
        match parseStringBody r with
        | some (kcs, r1) =>
          match skipWs r1 with
          | d :: r2 =>
            if d = ':' then
              match parseValue fuel r2 with
              | some (v, r3) =>
                match skipWs r3 with
                | e :: r4 =>
                  if e = ',' then
                    match parseMembers fuel (skipWs r4) with
                    | some (ms, r5) => some ((String.mk kcs, v) :: ms, r5)
                    | none => none
                  else if e = rbrace then some ([(String.mk kcs, v)], r4)
                  else none
                | [] => none
              | none => none
            else none
          | [] => none
        | none => none
      else none
    | [] => none

/-- Elements of a JSON array after its opening bracket: a value, then
    either a comma and further elements or the closing bracket. -/
def parseElems : Nat → List Char → Option (List Json × List Char)
  | 0, _ => none
  | fuel + 1, cs =>
    match parseValue fuel cs with
    | some (v, r1) =>
      match skipWs r1 with
      | c :: r2 =>
        if c = ',' then
          match parseElems fuel r2 with
          | some (vs, r3) => some (v :: vs, r3)
          | none => none
        else if c = ']' then some ([v], r2)
        else none
      | [] => none
    | none => none

end

/-- Model of JSON.parse on a whole document: parse one value with enough
    fuel for the input and require that only whitespace follows it. -/
def parseJson (s : String) : Option Json :=
  match parseValue (s.data.length + 1) s.data with
  | some (j, rest) => if skipWs rest = [] then some j else none
  | none => none

/-- A value of the TypeScript number type as it can occupy the attempts or
    answer slot of a part state, together with the null that an unchecked
    load can leave there. The program itself only ever computes finite
    integer values, but the number type also admits NaN and the infinities;
    JSON.stringify writes null for those three, so a loaded record can hold
    null where a number was saved, and the unchecked cast in loadDayState
    passes it through. Finite non-integer numbers are outside the modelled
    fragment. -/
inductive JSNum where
  | int (n : Int)
  | nan
  | posInf
  | negInf
  | nullVal
deriving Repr, DecidableEq

/-- A numeric literal in a number slot denotes a finite integer value. -/
instance (n : Nat) : OfNat JSNum n := ⟨.int (Int.ofNat n)⟩

/-- JSON.stringify on a number slot: a finite number prints as a number;
    NaN, Infinity and -Infinity print as null, as does null itself. -/
def JSNum.toJson : JSNum → Json
  | .int n => .num n
  | _ => .null

/-- Reading a number slot back from parsed JSON: JSON.parse yields a
    number, or the null that was written for a non-finite one. -/
def asJSNum : Json → Option JSNum
  | .num n => some (.int n)
  | .null => some .nullVal
  | _ => none

/-- Whether serialization preserves the value in a number slot: a finite
    integer and null survive the JSON round trip, while NaN and the
    infinities are written as null and come back changed. -/
def JSNum.preserved : JSNum → Bool
  | .nan => false
  | .posInf => false
  | .negInf => false
  | _ => true

/-- Per-part persisted state (the part1/part2 fields of interface DayState
    in config.ts). The status is kept as a raw string, as the runtime does
    not validate it; the answer is a number or a string per the interface,
    the number slots carrying JSNum so that the non-finite values of the
    TypeScript number type are representable. -/
structure PartState where
  status : String
  answer : Option (JSNum ⊕ String) := none
  submitted_at : Option String := none
  attempts : JSNum
deriving Repr, DecidableEq

/-- Interface DayState from config.ts. Optional fields model the
    TypeScript optional properties; an absent field is not serialized,
    matching how JSON.stringify drops undefined properties. -/
structure DayState where
  day : Int
  year : Int
  status : String
  part1 : Option PartState := none
  part2 : Option PartState := none
  started_at : Option String := none
  completed_at : Option String := none
  error : Option String := none
deriving Repr, DecidableEq

/-- JSON encoding of an answer value (number slot or string). -/
def answerToJson : JSNum ⊕ String → Json
  | .inl v => v.toJson
  | .inr s => .str s

/-- An optional member of a JSON object: absent when the field is
    undefined. -/
def optField (k : String) (v : Option Json) : List (String × Json) :=
  match v with
  | some j => [(k, j)]
  | none => []

/-- JSON object written for a part state, fields in interface order. -/
def PartState.toJson (p : PartState) : Json :=
  .obj ([("status", .str p.status)]
    ++ optField "answer" (p.answer.map answerToJson)
    ++ optField "submitted_at" (p.submitted_at.map Json.str)
    ++ [("attempts", p.attempts.toJson)])

/-- JSON object written for a day state, fields in interface order. -/
def DayState.toJson (s : DayState) : Json :=
  .obj ([("day", .num s.day), ("year", .num s.year), ("status", .str s.status)]
    ++ optField "part1" (s.part1.map PartState.toJson)
    ++ optField "part2" (s.part2.map PartState.toJson)
    ++ optField "started_at" (s.started_at.map Json.str)
    ++ optField "completed_at" (s.completed_at.map Json.str)
    ++ optField "error" (s.error.map Json.str))

/-- Lookup of a key in a parsed JSON object. -/
def jlookup (ms : List (String × Json)) (k : String) : Option Json :=
  match ms with
  | [] => none
  | (k2, v) :: rest => if k2 = k then some v else jlookup rest k

/-- Read an answer field back (number slot or string); a null in the slot
    decodes to the null value of the number slot. -/
def asAnswer : Json → Option (JSNum ⊕ String)
  | .num n => some (.inl (.int n))
  | .null => some (.inl .nullVal)
  | .str s => some (.inr s)
  | _ => none

/-- Read a string field back. -/
def asStr : Json → Option String
  | .str s => some s
  | _ => none

/-- Decode an optional field: an absent member decodes to none. -/
def optDecode {α : Type} (f : Json → Option α) : Option Json → Option (Option α)
  | none => some none
  | some j => (f j).map some

/-- Reading a part state back from parsed JSON. This models the shape of
    value that loadDayState hands to its callers: the TypeScript code
    returns the parsed object under an unchecked cast, and every state this
    program writes has this shape. -/
def partFromJson : Json → Option PartState
  | .obj ms =>
    match jlookup ms "status", (jlookup ms "attempts").bind asJSNum with
    | some (.str st), some att =>
      match optDecode asAnswer (jlookup ms "answer"),
            optDecode asStr (jlookup ms "submitted_at") with
      | some ans, some sub =>
          some { status := st, answer := ans, submitted_at := sub, attempts := att }
      | _, _ => none
    | _, _ => none
  | _ => none

/-- Reading a day state back from parsed JSON (see partFromJson). -/
def dayStateFromJson : Json → Option DayState
  | .obj ms =>
    match jlookup ms "day", jlookup ms "year", jlookup ms "status" with
    | some (.num d), some (.num y), some (.str st) =>
      match optDecode partFromJson (jlookup ms "part1"),
            optDecode partFromJson (jlookup ms "part2") with
      | some p1, some p2 =>
        match optDecode asStr (jlookup ms "started_at"),
              optDecode asStr (jlookup ms "completed_at"),
              optDecode asStr (jlookup ms "error") with
        | some sa, some ca, some er =>
            some { day := d, year := y, status := st, part1 := p1, part2 := p2,
                   started_at := sa, completed_at := ca, error := er }
        | _, _, _ => none
      | _, _ => none
    | _, _, _ => none
  | _ => none

/-- All number slots of a part survive the JSON round trip. -/
def PartState.numbersPreserved (p : PartState) : Bool :=
  p.attempts.preserved &&
    (match p.answer with
     | some (.inl v) => v.preserved
     | _ => true)

/-- All number slots of a day state survive the JSON round trip; the day
    and year fields are integer-valued in the model and always do. -/
def DayState.numbersPreserved (s : DayState) : Bool :=
  (match s.part1 with
   | some p => p.numbersPreserved
   | none => true) &&
  (match s.part2 with
   | some p => p.numbersPreserved
   | none => true)

/-- The file content written by saveDayState:
    JSON.stringify(state, null, 2). -/
def stringifyDayState (s : DayState) : String :=
  String.mk (renderJson 0 s.toJson)

/-- The state directory, as a map from day number to the content of
    state/day{day}.json; none models a missing file. -/
def Store : Type := Int → Option String

/-- saveDayState from config.ts: write the serialized state to the
    selected day's file. -/
def saveDayState (day : Int) (state : DayState) (store : Store) : Store :=
  fun k => if k = day then some (stringifyDayState state) else store k

/-- loadDayState from config.ts: read and JSON.parse the selected day's
    file; any failure (missing file or parse error) is caught and yields
    null, modelled by none. -/
def loadDayState (day : Int) (store : Store) : Option DayState :=
  match store day with
  | none => none
  | some text =>
    match parseJson text with
    | none => none
    | some j => dayStateFromJson j

/-- initializeDayState from main.ts: reuse the existing state if one
    loads, otherwise create a pending state for the day and save it. -/
def initializeDayState (day : Int) (now : String) (store : Store) : DayState × Store :=
  match loadDayState day store with
  | some st => (st, store)
  | none =>
    let st : DayState :=
      { day := day, year := AOC_YEAR, status := "pending", started_at := some now }
    (st, saveDayState day st store)

/-- The state update in main.ts when the orchestrator result message has
    subtype success. -/
def markCompleted (st : DayState) (now : String) : DayState :=
  { st with status := "completed", completed_at := some now }

/-- The state update in main.ts when the orchestrator result message has
    a non-success subtype. -/
def markFailed (st : DayState) (subtype : String) : DayState :=
  { st with status := "failed", error := some subtype }

/-- Observable effect of the query() call that runs the orchestrator
    agent: the state files it rewrites, the subtype of its result message,
    and how many answer submissions it performed. -/
structure ExtResult where
  store : Store
  subtype : String
  submissions : Nat

/-- Outcome of one invocation of main(). -/
inductive MainOutcome where
  | exitEnvError
  | skipWindow
  | exitInvalidDay (day : Int)
  | exitNoSession
  | skipCompleted (day : Int)
  | finished (success : Bool)
deriving Repr, DecidableEq

/-- Process exit status for each outcome of main(). -/
def exitCode : MainOutcome → Nat
  | .exitEnvError => 1
  | .skipWindow => 0
  | .exitInvalidDay _ => 1
  | .exitNoSession => 1
  | .skipCompleted _ => 0
  | .finished _ => 0

/-- The tail of main() after the day is selected and the state loaded:
    run the orchestrator, then on success reload the state and mark it
    completed, otherwise reload it and mark it failed. -/
def finishRun (day : Int) (now : String) (ext : Store → ExtResult) (store : Store) :
    MainOutcome × Store × Nat :=
  let r := ext store
  if r.subtype = "success" then
    match loadDayState day r.store with
    | some st => (.finished true, saveDayState day (markCompleted st now) r.store, r.submissions)
    | none => (.finished true, r.store, r.submissions)
  else
    match loadDayState day r.store with
    | some st => (.finished false, saveDayState day (markFailed st r.subtype) r.store, r.submissions)
    | none => (.finished false, r.store, r.submissions)

/-- main() from main.ts: environment validation, day selection and
    validation, session-cookie check, state initialization, the
    already-completed skip, the force re-run, and the orchestrator run.
    The returned number counts answer submissions performed. -/
def runMain (hasApiKey hasSession : Bool) (args : CLIArgs) (year month today : Int)
    (now : String) (store : Store) (ext : Store → ExtResult) :
    MainOutcome × Store × Nat :=
  if hasApiKey = false then (.exitEnvError, store, 0)
  else
    match selectDay args.day year month today with
    | .skipWindow => (.skipWindow, store, 0)
    | .invalidDay d => (.exitInvalidDay d, store, 0)
    | .run day =>
      if hasSession = false then (.exitNoSession, store, 0)
      else
        let p := initializeDayState day now store
        if p.1.status = "completed" ∧ args.force = false then
          (.skipCompleted day, p.2, 0)
        else
          let p2 :=
            if args.force then
              let s2 := { p.1 with status := "in_progress" }
              (s2, saveDayState day s2 p.2)
            else p
          finishRun day now ext p2.2

/-- Modelled from the spec: the per-part submission state machine of the
    retry/backoff controller. The repository implements this policy only
    as natural-language instructions to its submission-handler agent
    (maximum five submission attempts per part, backoff between retries,
    never more than one submission per minute); no executable code for it
    exists in the source, so the machine is taken from the specification.
    Phases of one puzzle part. -/
inductive PartPhase where
  | notStarted
  | attempting
  | correct
  | exhausted
  | alreadyCompleted
deriving Repr, DecidableEq

/-- Modelled from the spec: outcome of one submission call. -/
inductive SubOutcome where
  | correct
  | incorrect
  | rateLimited (wait : Nat)
  | alreadyCompleted
  | transientError
deriving Repr, DecidableEq

/-- Modelled from the spec: state of the retry controller for one part:
    its phase, the attempts counter, and the separate budget of silent
    transient-error retries. -/
structure RetryState where
  phase : PartPhase
  attempts : Nat
  transientRetries : Nat
deriving Repr, DecidableEq

/-- A phase from which the controller makes no further automatic
    submissions. -/
def PartPhase.isTerminal : PartPhase → Bool
  | .correct => true
  | .exhausted => true
  | .alreadyCompleted => true
  | _ => false

/-- Modelled from the spec: whether the controller submits at all in the
    given state; terminal states make no further automatic submission. -/
def submits (s : RetryState) : Bool :=
  ¬ s.phase.isTerminal

/-- Modelled from the spec: one transition of the retry controller on a
    submission outcome. Correct terminates with the attempt counted;
    Incorrect counts the attempt and exhausts the part when the maximum is
    reached; RateLimited and a transient error within its three-retry
    budget do not count an attempt; a transient error beyond that budget
    folds into the Incorrect count. In a terminal state nothing is
    submitted and nothing changes. -/
def stepRetry (maxAttempts : Nat) (s : RetryState) (o : SubOutcome) : RetryState :=
  if s.phase.isTerminal then s
  else
    match o with
    | .correct => { phase := .correct, attempts := s.attempts + 1, transientRetries := 0 }
    | .incorrect =>
        if s.attempts + 1 ≥ maxAttempts then
          { phase := .exhausted, attempts := s.attempts + 1, transientRetries := 0 }
        else
          { phase := .attempting, attempts := s.attempts + 1, transientRetries := 0 }
    | .rateLimited _ => { s with phase := .attempting }
    | .alreadyCompleted => { s with phase := .alreadyCompleted }
    | .transientError =>
        if s.transientRetries < MAX_RETRIES then
          { s with phase := .attempting, transientRetries := s.transientRetries + 1 }
        else if s.attempts + 1 ≥ maxAttempts then
          { phase := .exhausted, attempts := s.attempts + 1, transientRetries := 0 }
        else
          { phase := .attempting, attempts := s.attempts + 1, transientRetries := 0 }

/-- Modelled from the spec: the initial state of a part. -/
def initRetry : RetryState :=
  { phase := .notStarted, attempts := 0, transientRetries := 0 }

/-- Modelled from the spec: run the retry controller over a sequence of
    submission outcomes. -/
def runRetry (maxAttempts : Nat) (s : RetryState) (os : List SubOutcome) : RetryState :=
  os.foldl (stepRetry maxAttempts) s

/-- Modelled from the spec: the backoff schedule between implementation
    retries, in seconds, as a function of the attempts already made:
    attempt 2 waits 1 minute, attempt 3 waits 5 minutes, attempt 4 waits
    15 minutes, attempt 5 waits 60 minutes. -/
def backoffDelay (attemptsMade : Nat) : Nat :=
  match attemptsMade with
  | 0 => 0
  | 1 => 60
  | 2 => 300
  | 3 => 900
  | _ => 3600

/-- Modelled from the spec: the timed submission controller for one part:
    the untimed retry state, the time of the last submission for the part,
    and the earliest time allowed by a pending rate-limit wait. -/
structure TimedState where
  retry : RetryState
  lastSubmit : Option Nat
  notBefore : Nat
deriving Repr, DecidableEq

/-- Modelled from the spec: the initial timed state of a part. -/
def initTimed : TimedState :=
  { retry := initRetry, lastSubmit := none, notBefore := 0 }

/-- Modelled from the spec: whether a submission for the part may be made
    at time t: the part must not be terminal, any rate-limit wait must
    have elapsed, and at least the larger of the backoff delay and the
    60-second hard floor must have passed since the previous submission
    of the same part. -/
def canSubmitAt (s : TimedState) (t : Nat) : Bool :=
  submits s.retry && s.notBefore ≤ t &&
    (match s.lastSubmit with
     | none => true
     | some t0 => t0 + max 60 (backoffDelay s.retry.attempts) ≤ t)

/-- Modelled from the spec: one timed submission event: the guard must
    allow submitting at time t, the untimed machine steps on the outcome,
    the submission time is recorded, and a RateLimited outcome suspends
    further submissions until its wait has elapsed. -/
def stepTimed (maxAttempts : Nat) (s : TimedState) (t : Nat) (o : SubOutcome) :
    Option TimedState :=
  if canSubmitAt s t then
    some { retry := stepRetry maxAttempts s.retry o,
           lastSubmit := some t,
           notBefore := match o with | .rateLimited w => t + w | _ => s.notBefore }
  else none

/-- Modelled from the spec: run the timed controller over a sequence of
    dated submission events; none means some event violated the guard, so
    the sequence is not a trace of the controller. -/
def runTimed (maxAttempts : Nat) (s : TimedState) : List (Nat × SubOutcome) → Option TimedState
  | [] => some s
  | (t, o) :: evs =>
    match stepTimed maxAttempts s t o with
    | some s2 => runTimed maxAttempts s2 evs
    | none => none

mutual

/-- Number of value nodes of a JSON value, used as the fuel bound for the
    parser in the round-trip proofs. -/
def sizeJ : Json → Nat
  | .null => 1
  | .bool _ => 1
  | .num _ => 1
  | .str _ => 1
  | .arr xs => 1 + sizeL xs
  | .obj ms => 1 + sizeM ms

/-- Node count of a list of array elements. -/
def sizeL : List Json → Nat
  | [] => 0
  | x :: xs => 1 + sizeJ x + sizeL xs

/-- Node count of a list of object members. -/
def sizeM : List (String × Json) → Nat
  | [] => 0
  | (_, v) :: ms => 1 + sizeJ v + sizeM ms

end

/-- The active-window test holds exactly on December 1..12, 2025. -/
theorem isActive_iff (year month day : Int) :
    isAoC2025Active year month day = true ↔
      (year = 2025 ∧ month = 12 ∧ 1 ≤ day ∧ day ≤ 12) := by
  simp only [isAoC2025Active, AOC_YEAR, AOC_START_DAY, AOC_END_DAY]
  split
  · simp_all
  · split
    · simp_all
    · split
      · constructor
        · intro h
          simp at h
        · intro h
          omega
      · simp_all
        try omega

/-- C1: with no explicit day argument, main() selects a day to run exactly
    when the current date in the reference timezone lies in the AoC 2025
    window (year 2025, December, day 1..12); for every date outside the
    window the auto-detect gate returns the exit-0 skip, never a run. -/
theorem c1_auto_window_gate (year month day : Int) :
    ((∃ k, selectDay none year month day = .run k) ↔
      (year = 2025 ∧ month = 12 ∧ 1 ≤ day ∧ day ≤ 12)) ∧
    (¬ (year = 2025 ∧ month = 12 ∧ 1 ≤ day ∧ day ≤ 12) →
      selectDay none year month day = .skipWindow ∧ exitCode .skipWindow = 0) := by
  have hact := isActive_iff year month day
  constructor
  · constructor
    · rintro ⟨k, hk⟩
      simp only [selectDay, autoDetect] at hk
      by_cases h : isAoC2025Active year month day = true
      · exact hact.mp h
      · simp [h] at hk
    · intro h
      refine ⟨day, ?_⟩
      simp only [selectDay, autoDetect, hact.mpr h]
      have : ¬ (day < 1 ∨ day > 25) := by omega
      simp [this]
  · intro h
    have : isAoC2025Active year month day ≠ true := fun hc => h (hact.mp hc)
    simp only [selectDay, autoDetect]
    simp [this, exitCode]

/-- Witness for C1 at a concrete date outside the window. -/
theorem c1_auto_window_gate_witness :
    selectDay none 2025 11 5 = .skipWindow := by
  have h := (c1_auto_window_gate 2025 11 5).2 (by decide)
  exact h.1

/-- C9: a day argument that parses to 0 or to NaN is falsy for the
    if (args.day) test, so the whole run is identical to one with no day
    supplied: it falls through to auto-detect and the active-window check,
    not to an invalid-day error; and parseArgs produces these values for
    "--day 0" and for a non-numeric day token. -/
theorem c9_falsy_day_auto_detect :
    (∀ (hk hs : Bool) (args : CLIArgs) (year month today : Int) (now : String)
        (store : Store) (ext : Store → ExtResult),
      (args.day = some (some 0) ∨ args.day = some none) →
      runMain hk hs args year month today now store ext =
        runMain hk hs { args with day := none } year month today now store ext) ∧
    (parseArgs ["--day", "0"]).day = some (some 0) ∧
    (parseArgs ["--day", "abc"]).day = some none := by
  refine ⟨?_, by decide, by decide⟩
  intro hk hs args year month today now store ext h
  rcases args with ⟨d, dr, db, fo⟩
  rcases h with h | h <;> simp only at h <;> subst h <;> rfl

/-- Witness for C9 at a concrete falsy day value. -/
theorem c9_falsy_day_auto_detect_witness :
    runMain true true { day := some (some 0), dryRun := false, debug := false, force := false }
        2025 11 5 "t" (fun _ => none) (fun s => ⟨s, "success", 0⟩) =
      runMain true true { day := none, dryRun := false, debug := false, force := false }
        2025 11 5 "t" (fun _ => none) (fun s => ⟨s, "success", 0⟩) :=
  c9_falsy_day_auto_detect.1 true true _ 2025 11 5 "t" _ _ (Or.inl rfl)

/-- C6 as stated is false: day 0 is explicitly supplied and lies outside
    1..=31, yet when the current date is outside the active window the
    controller exits 0 as a window skip (the falsy day falls through to
    auto-detect), not with a non-zero input-validation failure. -/
theorem c6_counterexample :
    (parseArgs ["--day", "0"]).day = some (some 0) ∧
    ((0 : Int) < 1 ∨ (31 : Int) < 0) ∧
    runMain true true { day := some (some 0), dryRun := false, debug := false, force := false }
        2025 11 5 "t" (fun _ => none) (fun s => ⟨s, "success", 0⟩) =
      (.skipWindow, (fun _ => none : Store), 0) ∧
    exitCode .skipWindow = 0 := by
  refine ⟨by decide, by decide, ?_, rfl⟩
  rfl

/-- C6 amended: an explicitly supplied day value that is truthy (nonzero
    and not NaN) and lies outside 1..=31 is rejected as an invalid day
    with a non-zero exit; a supplied day of 0 or NaN instead falls through
    to auto-detect mode, where the result can be an exit-0 skip. -/
theorem c6_amended_truthy_day_rejected (hs : Bool) (args : CLIArgs)
    (n year month today : Int) (now : String) (store : Store) (ext : Store → ExtResult)
    (hday : args.day = some (some n)) (hn : n ≠ 0) (hout : n < 1 ∨ 31 < n) :
    selectDay args.day year month today = .invalidDay n ∧
    runMain true hs args year month today now store ext = (.exitInvalidDay n, store, 0) ∧
    exitCode (.exitInvalidDay n) = 1 := by
  have hsel : selectDay args.day year month today = .invalidDay n := by
    rw [hday]
    simp only [selectDay]
    have h25 : n < 1 ∨ n > 25 := by omega
    simp [hn, h25]
  refine ⟨hsel, ?_, rfl⟩
  simp [runMain, hsel]

/-- Witness for the amended C6 at day 32. -/
theorem c6_amended_truthy_day_rejected_witness :
    runMain true true { day := some (some 32), dryRun := false, debug := false, force := false }
        2025 12 5 "t" (fun _ => none) (fun s => ⟨s, "success", 0⟩) =
      (.exitInvalidDay 32, (fun _ => none : Store), 0) :=
  (c6_amended_truthy_day_rejected true _ 32 2025 12 5 "t" _ _ rfl (by decide)
    (by right; decide)).2.1

/-- One step of the retry controller preserves the attempts bound together
    with the strict bound in non-terminal states. -/
theorem stepRetry_preserves (maxA : Nat) (s : RetryState) (o : SubOutcome)
    (h1 : s.attempts ≤ maxA) (h2 : s.phase.isTerminal = false → s.attempts < maxA) :
    (stepRetry maxA s o).attempts ≤ maxA ∧
      ((stepRetry maxA s o).phase.isTerminal = false →
        (stepRetry maxA s o).attempts < maxA) := by
  by_cases hterm : s.phase.isTerminal
  · simp [stepRetry, hterm, h1, h2]
  · have hlt : s.attempts < maxA := h2 (by simp [hterm])
    simp only [stepRetry, hterm, Bool.false_eq_true, if_false, if_neg]
    cases o with
    | correct => simp [PartPhase.isTerminal]; omega
    | incorrect =>
      by_cases hge : s.attempts + 1 ≥ maxA
      · simp [hge, PartPhase.isTerminal]; omega
      · simp [hge, PartPhase.isTerminal]; omega
    | rateLimited w => simp [PartPhase.isTerminal]; omega
    | alreadyCompleted => simp [PartPhase.isTerminal]; omega
    | transientError =>
      by_cases hbud : s.transientRetries < MAX_RETRIES
      · simp [hbud, PartPhase.isTerminal]; omega
      · by_cases hge : s.attempts + 1 ≥ maxA
        · simp [hbud, hge, PartPhase.isTerminal]; omega
        · simp [hbud, hge, PartPhase.isTerminal]; omega

/-- The attempts counter stays bounded along any run of the retry
    controller from a state satisfying the invariant. -/
theorem runRetry_attempts_le (maxA : Nat) (os : List SubOutcome) :
    ∀ s : RetryState, s.attempts ≤ maxA →
      (s.phase.isTerminal = false → s.attempts < maxA) →
      (runRetry maxA s os).attempts ≤ maxA := by
  induction os with
  | nil => intro s h1 _; simpa [runRetry] using h1
  | cons o os ih =>
    intro s h1 h2
    have hstep := stepRetry_preserves maxA s o h1 h2
    simpa [runRetry] using ih (stepRetry maxA s o) hstep.1 hstep.2

/-- C3: along every run of the submission retry controller from the
    initial state, the attempts counter never exceeds
    MAX_SUBMISSION_ATTEMPTS (5); a part with attempts equal to
    MAX_SUBMISSION_ATTEMPTS - 1 that receives an Incorrect outcome
    transitions to Exhausted; and from Exhausted no further automatic
    submission occurs and the state never changes again. -/
theorem c3_max_attempts :
    (∀ os : List SubOutcome,
      (runRetry MAX_SUBMISSION_ATTEMPTS initRetry os).attempts ≤ MAX_SUBMISSION_ATTEMPTS) ∧
    (∀ s : RetryState,
      (s.phase = .notStarted ∨ s.phase = .attempting) →
      s.attempts = MAX_SUBMISSION_ATTEMPTS - 1 →
      (stepRetry MAX_SUBMISSION_ATTEMPTS s .incorrect).phase = .exhausted) ∧
    (∀ s : RetryState, s.phase = .exhausted →
      submits s = false ∧ ∀ o : SubOutcome, stepRetry MAX_SUBMISSION_ATTEMPTS s o = s) := by
  refine ⟨?_, ?_, ?_⟩
  · intro os
    exact runRetry_attempts_le MAX_SUBMISSION_ATTEMPTS os initRetry (by decide) (by decide)
  · intro s hphase hatt
    have hterm : s.phase.isTerminal = false := by
      rcases hphase with h | h <;> simp [h, PartPhase.isTerminal]
    have hge : s.attempts + 1 ≥ MAX_SUBMISSION_ATTEMPTS := by
      simp [MAX_SUBMISSION_ATTEMPTS] at hatt ⊢
      omega
    simp [stepRetry, hterm, hge]
  · intro s hphase
    have hterm : s.phase.isTerminal = true := by simp [hphase, PartPhase.isTerminal]
    constructor
    · simp [submits, hterm]
    · intro o
      simp [stepRetry, hterm]

/-- Witness for C3: a concrete run of four incorrect outcomes then one
    more, and the exhaustion transition at four attempts. -/
theorem c3_max_attempts_witness :
    (runRetry MAX_SUBMISSION_ATTEMPTS initRetry
        [.incorrect, .incorrect, .incorrect, .incorrect, .incorrect, .incorrect]).attempts ≤
      MAX_SUBMISSION_ATTEMPTS ∧
    (stepRetry MAX_SUBMISSION_ATTEMPTS
        { phase := .attempting, attempts := 4, transientRetries := 0 } .incorrect).phase =
      .exhausted :=
  ⟨c3_max_attempts.1 _,
   c3_max_attempts.2.1 { phase := .attempting, attempts := 4, transientRetries := 0 }
     (Or.inr rfl) (by decide)⟩

/-- Along any accepted trace of the timed controller, starting from a
    state whose recorded last submission is prepended, consecutive
    submission times are at least 60 seconds apart. -/
theorem runTimed_gap (maxA : Nat) (evs : List (Nat × SubOutcome)) :
    ∀ (s : TimedState) (sfin : TimedState),
      runTimed maxA s evs = some sfin →
      List.Chain' (fun a b => a + 60 ≤ b) (s.lastSubmit.toList ++ evs.map Prod.fst) := by
  induction evs with
  | nil =>
    intro s sfin _
    rcases s.lastSubmit with _ | t0 <;> simp
  | cons ev evs ih =>
    rcases ev with ⟨t, o⟩
    intro s sfin h
    simp only [runTimed] at h
    rcases hstep : stepTimed maxA s t o with _ | s2
    · rw [hstep] at h; exact absurd h (by simp)
    · rw [hstep] at h
      have htail := ih s2 sfin h
      have hs2last : s2.lastSubmit = some t := by
        simp only [stepTimed] at hstep
        by_cases hg : canSubmitAt s t
        · simp [hg] at hstep
          rw [← hstep]
        · simp [hg] at hstep
      rw [hs2last] at htail
      simp only [Option.toList_some, List.singleton_append] at htail
      have hguard : canSubmitAt s t = true := by
        simp only [stepTimed] at hstep
        by_cases hg : canSubmitAt s t
        · exact hg
        · simp [hg] at hstep
      rcases hlast : s.lastSubmit with _ | t0
      · simpa using htail
      · have h60 : t0 + 60 ≤ t := by
          simp only [canSubmitAt, hlast, Bool.and_eq_true, decide_eq_true_eq] at hguard
          have := hguard.2
          omega
        simp only [Option.toList_some, List.singleton_append, List.map_cons]
        exact List.Chain'.cons h60 htail

/-- C8: for every pair of consecutive submissions of the same part along
    any trace accepted by the timed submission controller, the second
    occurs at least 60 seconds after the previous one — the hard floor
    holds even where the backoff schedule alone would allow an earlier
    retry. -/
theorem c8_sixty_second_floor (evs : List (Nat × SubOutcome)) (sfin : TimedState)
    (h : runTimed MAX_SUBMISSION_ATTEMPTS initTimed evs = some sfin) :
    List.Chain' (fun a b => a + 60 ≤ b) (evs.map Prod.fst) := by
  have := runTimed_gap MAX_SUBMISSION_ATTEMPTS evs initTimed sfin h
  simpa [initTimed] using this

/-- Witness for C8 on a concrete accepted two-submission trace. -/
theorem c8_sixty_second_floor_witness :
    List.Chain' (fun a b => a + 60 ≤ b)
      (([((0 : Nat), SubOutcome.incorrect), (60, SubOutcome.correct)]).map Prod.fst) :=
  c8_sixty_second_floor _
    { retry := { phase := .correct, attempts := 2, transientRetries := 0 },
      lastSubmit := some 60, notBefore := 0 }
    (by decide)

/-- Characters are equal exactly when their code points are. -/
theorem char_eq_iff (c d : Char) : c = d ↔ c.toNat = d.toNat := by
  constructor
  · rintro rfl; rfl
  · intro h
    exact Char.ext (UInt32.ext h)

/-- Skipping whitespace does nothing before a non-whitespace head. -/
theorem skipWs_cons (c : Char) (l : List Char) (h : jsonWs c = false) :
    skipWs (c :: l) = c :: l := by
  simp [skipWs, List.dropWhile_cons, h]

/-- Skipping whitespace consumes a whitespace-only prefix. -/
theorem skipWs_ws_append (a x : List Char) (h : ∀ c ∈ a, jsonWs c = true) :
    skipWs (a ++ x) = skipWs x := by
  induction a with
  | nil => rfl
  | cons c a ih =>
    have hc := h c (List.mem_cons_self c a)
    have ih2 := ih (fun d hd => h d (List.mem_cons_of_mem c hd))
    simp only [List.cons_append, skipWs, List.dropWhile_cons, hc, if_true]
    exact ih2

/-- Indentation consists of whitespace only. -/
theorem indentChars_ws (n : Nat) : ∀ c ∈ indentChars n, jsonWs c = true := by
  intro c hc
  have : c = ' ' := List.eq_of_mem_replicate hc
  subst this
  decide

/-- A hexadecimal digit emitted for a value below 16 reads back as that
    value. -/
theorem hexDigitChar_spec : ∀ m : Nat, m < 16 →
    isHexDigitJS (hexDigitChar m) = true ∧ hexVal (hexDigitChar m) = m := by decide

/-- Parsing a string body undoes the escaping of JSON.stringify. -/
theorem parseStringBody_escape (cs : List Char) (rest : List Char) :
    parseStringBody (escapeStr cs ++ '"' :: rest) = some (cs, rest) := by
  induction cs with
  | nil =>
    rw [show escapeStr [] ++ '"' :: rest = '"' :: rest by simp [escapeStr]]
    rw [parseStringBody.eq_def]
    simp
  | cons c cs ih =>
    have hsplit : escapeStr (c :: cs) = escapeChar c ++ escapeStr cs := by
      simp [escapeStr]
    rw [hsplit, List.append_assoc]
    by_cases h1 : c = '"'
    · subst h1
      rw [show escapeChar '"' = ['\\', '"'] from rfl]
      simp only [List.cons_append, List.nil_append]
      rw [parseStringBody.eq_def]
      simp [ih]
    · by_cases h2 : c = '\\'
      · subst h2
        rw [show escapeChar '\\' = ['\\', '\\'] from rfl]
        simp only [List.cons_append, List.nil_append]
        rw [parseStringBody.eq_def]
        simp [ih]
      · by_cases h3 : c = '\x08'
        · subst h3
          rw [show escapeChar '\x08' = ['\\', 'b'] from rfl]
          simp only [List.cons_append, List.nil_append]
          rw [parseStringBody.eq_def]
          simp [ih]
        · by_cases h4 : c = '\x0c'
          · subst h4
            rw [show escapeChar '\x0c' = ['\\', 'f'] from rfl]
            simp only [List.cons_append, List.nil_append]
            rw [parseStringBody.eq_def]
            simp [ih]
          · by_cases h5 : c = '\n'
            · subst h5
              rw [show escapeChar '\n' = ['\\', 'n'] from rfl]
              simp only [List.cons_append, List.nil_append]
              rw [parseStringBody.eq_def]
              simp [ih]
            · by_cases h6 : c = '\r'
              · subst h6
                rw [show escapeChar '\r' = ['\\', 'r'] from rfl]
                simp only [List.cons_append, List.nil_append]
                rw [parseStringBody.eq_def]
                simp [ih]
              · by_cases h7 : c = '\t'
                · subst h7
                  rw [show escapeChar '\t' = ['\\', 't'] from rfl]
                  simp only [List.cons_append, List.nil_append]
                  rw [parseStringBody.eq_def]
                  simp [ih]
                · by_cases h8 : c.toNat < 32
                  · have hdiv : c.toNat / 16 < 16 := by omega
                    have hmod : c.toNat % 16 < 16 := by omega
                    have hd := hexDigitChar_spec _ hdiv
                    have hm := hexDigitChar_spec _ hmod
                    have h00 : isHexDigitJS '0' = true := by decide
                    have h0v : hexVal '0' = 0 := by decide
                    have hval : hexToNat ['0', '0', hexDigitChar (c.toNat / 16),
                        hexDigitChar (c.toNat % 16)] = c.toNat := by
                      simp [hexToNat, h0v, hd.2, hm.2]
                      omega
                    have hlt : c.toNat < 55296 ∨ 57344 ≤ c.toNat := by omega
                    have hesc : escapeChar c = ['\\', 'u', '0', '0',
                        hexDigitChar (c.toNat / 16), hexDigitChar (c.toNat % 16)] := by
                      simp only [escapeChar, if_neg h1, if_neg h2, if_neg h3, if_neg h4,
                        if_neg h5, if_neg h6, if_neg h7, if_pos h8]
                    rw [hesc]
                    simp only [List.cons_append, List.nil_append]
                    rw [parseStringBody.eq_def]
                    simp [h00, hd.1, hm.1, hval, hlt, ih, Char.ofNat_toNat]
                  · have hesc : escapeChar c = [c] := by
                      simp only [escapeChar, if_neg h1, if_neg h2, if_neg h3, if_neg h4,
                        if_neg h5, if_neg h6, if_neg h7, if_neg h8]
                    rw [hesc]
                    simp only [List.cons_append, List.nil_append]
                    rw [parseStringBody.eq_def]
                    simp [h1, h2, h8, ih]

/-- Facts about the decimal digit characters. -/
theorem digitChar10_spec : ∀ d : Nat, d < 10 →
    isDigit10 (digitChar10 d) = true ∧ (digitChar10 d).toNat = 48 + d := by decide

/-- Folding decimal digits most-significant-first computes ofDigits of the
    little-endian digit list. -/
theorem foldl_reverse_ofDigits (ds : List Nat) :
    (ds.reverse).foldl (fun a d => a * 10 + d) 0 = Nat.ofDigits 10 ds := by
  induction ds with
  | nil => rfl
  | cons d ds ih =>
    rw [List.reverse_cons, List.foldl_append, ih]
    simp only [List.foldl_cons, List.foldl_nil, Nat.ofDigits_cons]
    ring

/-- Reading the digit characters of n back gives n. -/
theorem digitsToNat_natDigits (n : Nat) : digitsToNat (natDigits n) = n := by
  unfold digitsToNat natDigits
  rw [List.foldl_map]
  rw [List.foldl_ext _ (fun a d => a * 10 + d) 0
    (fun a d hd => by
      have hd10 : d < 10 := Nat.digits_lt_base (by norm_num) (List.mem_reverse.mp hd)
      have h48 := (digitChar10_spec d hd10).2
      show a * 10 + ((digitChar10 d).toNat - 48) = a * 10 + d
      omega)]
  rw [foldl_reverse_ofDigits, Nat.ofDigits_digits]

/-- Every character of natRepr is a decimal digit. -/
theorem natRepr_digits (n : Nat) : ∀ c ∈ natRepr n, isDigit10 c = true := by
  intro c hc
  by_cases h0 : n = 0
  · subst h0
    simp [natRepr] at hc
    subst hc
    decide
  · simp only [natRepr, h0, if_neg, if_false, natDigits] at hc
    simp only [List.mem_map, List.mem_reverse] at hc
    obtain ⟨d, hd, rfl⟩ := hc
    exact (digitChar10_spec d (Nat.digits_lt_base (by norm_num) hd)).1

/-- Reading natRepr back gives n. -/
theorem digitsToNat_natRepr (n : Nat) : digitsToNat (natRepr n) = n := by
  by_cases h0 : n = 0
  · subst h0; decide
  · simp [natRepr, h0, digitsToNat_natDigits]

/-- The head of natRepr is a digit, and it is the zero digit only for
    n = 0. -/
theorem natRepr_head (n : Nat) :
    ∃ c L, natRepr n = c :: L ∧ isDigit10 c = true ∧ (n ≠ 0 → ¬ c = '0') := by
  by_cases h0 : n = 0
  · subst h0
    exact ⟨'0', [], rfl, by decide, by simp⟩
  · have hne : Nat.digits 10 n ≠ [] := Nat.digits_ne_nil_iff_ne_zero.mpr h0
    have hrevne : (Nat.digits 10 n).reverse ≠ [] := by
      simpa using hne
    obtain ⟨d, ds, hds⟩ := List.exists_cons_of_ne_nil hrevne
    have hdval : some d = (Nat.digits 10 n).getLast? := by
      rw [← List.head?_reverse, hds]
      rfl
    have hdne : d ≠ 0 := by
      rw [List.getLast?_eq_getLast _ hne] at hdval
      rw [Option.some.injEq] at hdval
      rw [hdval]
      exact Nat.getLast_digit_ne_zero 10 h0
    have hd10 : d < 10 := by
      have : d ∈ Nat.digits 10 n := by
        have : d ∈ (Nat.digits 10 n).reverse := by rw [hds]; exact List.mem_cons_self d ds
        exact List.mem_reverse.mp this
      exact Nat.digits_lt_base (by norm_num) this
    refine ⟨digitChar10 d, ds.map digitChar10, ?_, (digitChar10_spec d hd10).1, ?_⟩
    · simp [natRepr, h0, natDigits, hds]
    · intro _
      have := (digitChar10_spec d hd10).2
      rw [char_eq_iff]
      intro hc
      have : (48 : Nat) + d = 48 := by
        rw [← this, hc]
        decide
      omega

/-- A decimal digit differs from any character that is not a decimal
    digit. -/
theorem digit_ne (c d : Char) (h : isDigit10 c = true) (hd : isDigit10 d = false) :
    ¬ c = d := fun hc => by
  subst hc
  rw [h] at hd
  cases hd

/-- A decimal digit is not JSON whitespace. -/
theorem digit_not_ws (c : Char) (h : isDigit10 c = true) : jsonWs c = false := by
  cases hws : jsonWs c
  · rfl
  · exfalso
    simp only [jsonWs, Bool.or_eq_true, decide_eq_true_eq] at hws
    rcases hws with ((h1 | h1) | h1) | h1 <;> subst h1 <;> exact absurd h (by decide)

/-- JSON whitespace does not continue a number. -/
theorem ws_notNumCont (w : Char) (l : List Char) (hw : jsonWs w = true) :
    headIsNumCont (w :: l) = false := by
  simp only [jsonWs, Bool.or_eq_true, decide_eq_true_eq] at hw
  rcases hw with ((h | h) | h) | h <;> subst h <;> rfl

/-- A whitespace-only prefix before a non-continuing head does not make
    the input continue a number. -/
theorem ws_append_notNumCont (wsl : List Char) (l : List Char)
    (hws : ∀ c ∈ wsl, jsonWs c = true) (hl : headIsNumCont l = false) :
    headIsNumCont (wsl ++ l) = false := by
  cases wsl with
  | nil => simpa using hl
  | cons w r => exact ws_notNumCont w _ (hws w (List.mem_cons_self w r))

/-- takeWhile and dropWhile split a prefix on which the predicate holds
    from a remainder whose head fails it. -/
theorem takeWhile_dropWhile_append (p : Char → Bool) (L rest : List Char)
    (hall : ∀ c ∈ L, p c = true)
    (hrest : ∀ c, rest.head? = some c → p c = false) :
    (L ++ rest).takeWhile p = L ∧ (L ++ rest).dropWhile p = rest := by
  induction L with
  | nil =>
    cases rest with
    | nil => exact ⟨rfl, rfl⟩
    | cons c r =>
      have hc := hrest c rfl
      simp [List.takeWhile_cons, List.dropWhile_cons, hc]
  | cons c L ih =>
    have hc := hall c (List.mem_cons_self c L)
    have ih2 := ih (fun d hd => hall d (List.mem_cons_of_mem c hd))
    simp [List.takeWhile_cons, List.dropWhile_cons, hc, ih2.1, ih2.2]

/-- parseNatCore reads back natRepr. -/
theorem parseNatCore_natRepr (n : Nat) (rest : List Char)
    (hrest : headIsDigit rest = false) :
    parseNatCore (natRepr n ++ rest) = some (n, rest) := by
  by_cases h0 : n = 0
  · subst h0
    rw [show natRepr 0 = ['0'] from rfl]
    rw [parseNatCore.eq_def]
    simp [hrest]
  · obtain ⟨c, L, hcl, hdig, hzero⟩ := natRepr_head n
    have hc0 : ¬ c = '0' := hzero h0
    have hall : ∀ d ∈ c :: L, isDigit10 d = true := by
      rw [← hcl]; exact natRepr_digits n
    have hres : ∀ d, rest.head? = some d → isDigit10 d = false := by
      intro d hd
      cases rest with
      | nil => simp at hd
      | cons e r =>
        simp only [List.head?_cons, Option.some.injEq] at hd
        subst hd
        simpa [headIsDigit] using hrest
    have htd := takeWhile_dropWhile_append isDigit10 (c :: L) rest hall hres
    rw [hcl]
    rw [parseNatCore.eq_def]
    simp only [List.cons_append]
    rw [if_neg hc0, if_pos hdig]
    simp only [List.cons_append] at htd
    rw [htd.1, htd.2]
    rw [← hcl, digitsToNat_natRepr]

/-- parseNumber reads back intRepr. -/
theorem parseNumber_intRepr (n : Int) (rest : List Char)
    (hrest : headIsNumCont rest = false) :
    parseNumber (intRepr n ++ rest) = some (n, rest) := by
  have hdigrest : headIsDigit rest = false := by
    cases rest with
    | nil => rfl
    | cons c r =>
      simp only [headIsNumCont, Bool.or_eq_false_iff] at hrest
      simpa [headIsDigit] using hrest.1.1.1
  by_cases hneg : n < 0
  · have habs : -((n.natAbs : Int)) = n := by omega
    rw [show intRepr n = '-' :: natRepr n.natAbs by simp [intRepr, hneg]]
    rw [parseNumber.eq_def]
    simp only [List.cons_append]
    rw [if_pos trivial]
    rw [parseNatCore_natRepr n.natAbs rest hdigrest]
    simp only [hrest, Bool.false_eq_true, if_false]
    rw [habs]
  · have habs : ((n.natAbs : Int)) = n := by omega
    obtain ⟨c, L, hcl, hdig, _⟩ := natRepr_head n.natAbs
    have hcm : ¬ c = '-' := digit_ne c '-' hdig (by decide)
    rw [show intRepr n = natRepr n.natAbs by simp [intRepr, hneg]]
    rw [hcl]
    rw [parseNumber.eq_def]
    simp only [List.cons_append]
    rw [if_neg hcm]
    rw [show c :: (L ++ rest) = natRepr n.natAbs ++ rest by rw [hcl]; simp]
    rw [parseNatCore_natRepr n.natAbs rest hdigrest]
    simp only [hrest, Bool.false_eq_true, if_false]
    rw [habs]

/-- parseValue ignores a leading whitespace-only prefix. -/
theorem parseValue_leading_ws (fuel : Nat) (a x : List Char)
    (h : ∀ c ∈ a, jsonWs c = true) :
    parseValue fuel (a ++ x) = parseValue fuel x := by
  cases fuel with
  | zero => rfl
  | succ fuel =>
    rw [parseValue.eq_2, parseValue.eq_2]
    rw [skipWs_ws_append a x h]

/-- parseValue on a null literal. -/
theorem parseValue_null (fuel : Nat) (r : List Char) :
    parseValue (fuel + 1) ('n' :: 'u' :: 'l' :: 'l' :: r) = some (.null, r) := by
  rw [parseValue.eq_2]
  rw [skipWs_cons _ _ (by decide)]
  rfl

/-- parseValue on a true literal. -/
theorem parseValue_true (fuel : Nat) (r : List Char) :
    parseValue (fuel + 1) ('t' :: 'r' :: 'u' :: 'e' :: r) = some (.bool true, r) := by
  rw [parseValue.eq_2]
  rw [skipWs_cons _ _ (by decide)]
  rfl

/-- parseValue on a false literal. -/
theorem parseValue_false (fuel : Nat) (r : List Char) :
    parseValue (fuel + 1) ('f' :: 'a' :: 'l' :: 's' :: 'e' :: r) = some (.bool false, r) := by
  rw [parseValue.eq_2]
  rw [skipWs_cons _ _ (by decide)]
  rfl

/-- parseValue on an opening quote. -/
theorem parseValue_quote (fuel : Nat) (r : List Char) :
    parseValue (fuel + 1) ('"' :: r) =
      (parseStringBody r).map (fun p => (Json.str (String.mk p.1), p.2)) := by
  rw [parseValue.eq_2]
  rw [skipWs_cons _ _ (by decide)]
  rfl

/-- parseValue on an opening brace. -/
theorem parseValue_lbrace (fuel : Nat) (r : List Char) :
    parseValue (fuel + 1) (lbrace :: r) =
      (match skipWs r with
       | d :: r2 =>
         if d = rbrace then some (Json.obj [], r2)
         else (parseMembers fuel (d :: r2)).map (fun p => (Json.obj p.1, p.2))
       | [] => none) := by
  rw [parseValue.eq_2]
  rw [skipWs_cons _ _ (by decide)]
  rfl

/-- parseValue on an opening bracket. -/
theorem parseValue_lbracket (fuel : Nat) (r : List Char) :
    parseValue (fuel + 1) ('[' :: r) =
      (match skipWs r with
       | d :: r2 =>
         if d = ']' then some (Json.arr [], r2)
         else (parseElems fuel (d :: r2)).map (fun p => (Json.arr p.1, p.2))
       | [] => none) := by
  rw [parseValue.eq_2]
  rw [skipWs_cons _ _ (by decide)]
  rfl

/-- parseValue on a minus sign or a digit dispatches to parseNumber. -/
theorem parseValue_numHead (fuel : Nat) (c : Char) (r : List Char)
    (h : c = '-' ∨ isDigit10 c = true) :
    parseValue (fuel + 1) (c :: r) =
      (parseNumber (c :: r)).map (fun p => (Json.num p.1, p.2)) := by
  have hc : c = '-' ∨ c = '0' ∨ c = '1' ∨ c = '2' ∨ c = '3' ∨ c = '4' ∨ c = '5' ∨
      c = '6' ∨ c = '7' ∨ c = '8' ∨ c = '9' := by
    rcases h with h | h
    · exact Or.inl h
    · right
      simp only [isDigit10, Bool.and_eq_true, decide_eq_true_eq] at h
      simp only [char_eq_iff, Char.reduceToNat]
      omega
  rcases hc with rfl | rfl | rfl | rfl | rfl | rfl | rfl | rfl | rfl | rfl | rfl <;>
    (rw [parseValue.eq_2]; rw [skipWs_cons _ _ (by decide)]; rfl)

/-- parseMembers at positive fuel on an opening quote, with its body
    exposed. -/
theorem parseMembers_quote (fuel : Nat) (r : List Char) :
    parseMembers (fuel + 1) ('"' :: r) =
      (match parseStringBody r with
       | some (kcs, r1) =>
         match skipWs r1 with
         | d :: r2 =>
           if d = ':' then
             match parseValue fuel r2 with
             | some (v, r3) =>
               match skipWs r3 with
               | e :: r4 =>
                 if e = ',' then
                   match parseMembers fuel (skipWs r4) with
                   | some (ms, r5) => some ((String.mk kcs, v) :: ms, r5)
                   | none => none
                 else if e = rbrace then some ([(String.mk kcs, v)], r4)
                 else none
               | [] => none
             | none => none
           else none
         | [] => none
       | none => none) := by
  rw [parseMembers.eq_2]
  rfl

/-- Every JSON value is at least one node. -/
theorem sizeJ_pos (j : Json) : 1 ≤ sizeJ j := by
  cases j <;> simp [sizeJ]

/-- A nonempty member list is at least one node. -/
theorem sizeM_pos (k : String) (v : Json) (ms : List (String × Json)) :
    1 ≤ sizeM ((k, v) :: ms) := by
  simp [sizeM]
  omega

/-- A nonempty element list is at least one node. -/
theorem sizeL_pos (x : Json) (xs : List Json) : 1 ≤ sizeL (x :: xs) := by
  simp [sizeL]
  omega

/-- The rendering of any JSON value starts with a character that is not
    whitespace, not a closing bracket and not a closing brace. -/
theorem renderJson_head (ind : Nat) (j : Json) :
    ∃ c cs, renderJson ind j = c :: cs ∧ jsonWs c = false ∧ ¬ c = ']' ∧ ¬ c = rbrace := by
  cases j with
  | null => exact ⟨'n', ['u', 'l', 'l'], by simp [renderJson], by decide, by decide, by decide⟩
  | bool b =>
    cases b with
    | false =>
      exact ⟨'f', ['a', 'l', 's', 'e'], by simp [renderJson], by decide, by decide, by decide⟩
    | true =>
      exact ⟨'t', ['r', 'u', 'e'], by simp [renderJson], by decide, by decide, by decide⟩
  | num n =>
    by_cases hneg : n < 0
    · exact ⟨'-', natRepr n.natAbs, by simp [renderJson, intRepr, hneg],
        by decide, by decide, by decide⟩
    · obtain ⟨c, L, hcl, hdig, _⟩ := natRepr_head n.natAbs
      exact ⟨c, L, by simp [renderJson, intRepr, hneg, hcl], digit_not_ws c hdig,
        digit_ne c ']' hdig (by decide), digit_ne c rbrace hdig (by decide)⟩
  | str s =>
    exact ⟨'"', escapeStr s.data ++ ['"'], by simp [renderJson],
      by decide, by decide, by decide⟩
  | arr xs =>
    cases xs with
    | nil => exact ⟨'[', [']'], by simp [renderJson], by decide, by decide, by decide⟩
    | cons x xs =>
      exact ⟨'[', '\n' :: (indentChars (ind + 1) ++ (renderElems (ind + 1) x xs ++
        ('\n' :: (indentChars ind ++ [']'])))), by simp [renderJson],
        by decide, by decide, by decide⟩
  | obj ms =>
    cases ms with
    | nil => exact ⟨lbrace, [rbrace], by simp [renderJson], by decide, by decide, by decide⟩
    | cons m ms =>
      exact ⟨lbrace, '\n' :: (indentChars (ind + 1) ++ (renderMembers (ind + 1) m ms ++
        ('\n' :: (indentChars ind ++ [rbrace])))), by simp [renderJson],
        by decide, by decide, by decide⟩

/-- The rendering of a member list starts with the quote of its first
    key. -/
theorem renderMembers_head (ind : Nat) (k : String) (v : Json)
    (ms : List (String × Json)) :
    ∃ tail, renderMembers ind (k, v) ms = '"' :: tail := by
  cases ms with
  | nil => exact ⟨escapeStr k.data ++ ('"' :: ':' :: ' ' :: renderJson ind v),
      by simp [renderMembers]⟩
  | cons m2 ms2 =>
    exact ⟨(escapeStr k.data ++ ('"' :: ':' :: ' ' :: renderJson ind v)) ++
      (',' :: '\n' :: (indentChars ind ++ renderMembers ind m2 ms2)),
      by simp [renderMembers]⟩

/-- The rendering of an element list starts with the rendering of its
    first element. -/
theorem renderElems_head (ind : Nat) (x : Json) (xs : List Json) :
    ∃ tail, renderElems ind x xs = renderJson ind x ++ tail := by
  cases xs with
  | nil => exact ⟨[], by simp [renderElems]⟩
  | cons y ys =>
    exact ⟨',' :: '\n' :: (indentChars ind ++ renderElems ind y ys),
      by simp [renderElems]⟩

theorem arr_step (fuel : Nat) (c : Char) (R : List Char) (hne : ¬ c = ']') :
    (match c :: R with
     | d :: r2 =>
       if d = ']' then some (Json.arr [], r2)
       else (parseElems fuel (d :: r2)).map (fun p => (Json.arr p.1, p.2))
     | [] => none) =
      (parseElems fuel (c :: R)).map (fun p => (Json.arr p.1, p.2)) := by
  simp [hne]

theorem obj_step (fuel : Nat) (c : Char) (R : List Char) (hne : ¬ c = rbrace) :
    (match c :: R with
     | d :: r2 =>
       if d = rbrace then some (Json.obj [], r2)
       else (parseMembers fuel (d :: r2)).map (fun p => (Json.obj p.1, p.2))
     | [] => none) =
      (parseMembers fuel (c :: R)).map (fun p => (Json.obj p.1, p.2)) := by
  simp [hne]


theorem parseMembers_keyColon (fuel : Nat) (k : List Char) (T : List Char) :
    parseMembers (fuel + 1) ('"' :: (escapeStr k ++ '"' :: (':' :: ' ' :: T))) =
      (match parseValue fuel (' ' :: T) with
       | some (v, r3) =>
         match skipWs r3 with
         | e :: r4 =>
           if e = ',' then
             match parseMembers fuel (skipWs r4) with
             | some (ms, r5) => some ((String.mk k, v) :: ms, r5)
             | none => none
           else if e = rbrace then some ([(String.mk k, v)], r4)
           else none
         | [] => none
       | none => none) := by
  rw [parseMembers_quote]
  rw [parseStringBody_escape]
  rfl

/-- Round trip of the fuel-indexed parser against the renderer: with fuel
    at least the node count, a rendered value followed by input that does
    not continue a number parses back to the value; rendered member and
    element lists followed by their closing delimiter parse back
    likewise. -/
theorem parse_render (fuel : Nat) :
    (∀ (j : Json) (ind : Nat) (rest : List Char),
      sizeJ j ≤ fuel → headIsNumCont rest = false →
      parseValue fuel (renderJson ind j ++ rest) = some (j, rest)) ∧
    (∀ (k : String) (v : Json) (ms : List (String × Json)) (ind : Nat) (wsl rest : List Char),
      sizeM ((k, v) :: ms) ≤ fuel → (∀ c ∈ wsl, jsonWs c = true) →
      parseMembers fuel (renderMembers ind (k, v) ms ++ (wsl ++ rbrace :: rest)) =
        some ((k, v) :: ms, rest)) ∧
    (∀ (x : Json) (xs : List Json) (ind : Nat) (wsl0 wsl rest : List Char),
      sizeL (x :: xs) ≤ fuel → (∀ c ∈ wsl0, jsonWs c = true) → (∀ c ∈ wsl, jsonWs c = true) →
      parseElems fuel (wsl0 ++ (renderElems ind x xs ++ (wsl ++ ']' :: rest))) =
        some (x :: xs, rest)) := by
  induction fuel with
  | zero =>
    refine ⟨?_, ?_, ?_⟩
    · intro j ind rest hsize _
      exact absurd hsize (by have := sizeJ_pos j; omega)
    · intro k v ms ind wsl rest hsize _
      exact absurd hsize (by have := sizeM_pos k v ms; omega)
    · intro x xs ind wsl0 wsl rest hsize _ _
      exact absurd hsize (by have := sizeL_pos x xs; omega)
  | succ fuel ih =>
    obtain ⟨ihV, ihM, ihE⟩ := ih
    refine ⟨?_, ?_, ?_⟩
    · -- the value statement
      intro j ind rest hsize hrest
      cases j with
      | null =>
        rw [show renderJson ind Json.null = ['n', 'u', 'l', 'l'] by simp [renderJson]]
        simp only [List.cons_append, List.nil_append]
        exact parseValue_null fuel rest
      | bool b =>
        cases b with
        | true =>
          rw [show renderJson ind (Json.bool true) = ['t', 'r', 'u', 'e'] by
            simp [renderJson]]
          simp only [List.cons_append, List.nil_append]
          exact parseValue_true fuel rest
        | false =>
          rw [show renderJson ind (Json.bool false) = ['f', 'a', 'l', 's', 'e'] by
            simp [renderJson]]
          simp only [List.cons_append, List.nil_append]
          exact parseValue_false fuel rest
      | num n =>
        rw [show renderJson ind (Json.num n) = intRepr n by simp [renderJson]]
        obtain ⟨c, L, hcl, hhead⟩ :
            ∃ c L, intRepr n = c :: L ∧ (c = '-' ∨ isDigit10 c = true) := by
          by_cases hneg : n < 0
          · exact ⟨'-', natRepr n.natAbs, by simp [intRepr, hneg], Or.inl rfl⟩
          · obtain ⟨c, L, hcl, hdig, _⟩ := natRepr_head n.natAbs
            exact ⟨c, L, by simp [intRepr, hneg, hcl], Or.inr hdig⟩
        rw [hcl, List.cons_append, parseValue_numHead fuel c _ hhead]
        rw [show c :: (L ++ rest) = intRepr n ++ rest by rw [hcl, List.cons_append]]
        rw [parseNumber_intRepr n rest hrest]
        rfl
      | str s =>
        rw [show renderJson ind (Json.str s) = '"' :: (escapeStr s.data ++ ['"']) by
          simp [renderJson]]
        rw [List.cons_append, parseValue_quote]
        rw [show (escapeStr s.data ++ ['"']) ++ rest = escapeStr s.data ++ '"' :: rest by simp]
        rw [parseStringBody_escape]
        rfl
      | arr xs =>
        cases xs with
        | nil =>
          rw [show renderJson ind (Json.arr []) = ['[', ']'] by simp [renderJson]]
          simp only [List.cons_append, List.nil_append]
          rw [parseValue_lbracket]
          rw [skipWs_cons _ _ (by decide)]
          rfl
        | cons x xs =>
          have hsizeL : sizeL (x :: xs) ≤ fuel := by
            simp only [sizeJ] at hsize
            omega
          rw [show renderJson ind (Json.arr (x :: xs)) =
            '[' :: ('\n' :: (indentChars (ind + 1) ++ (renderElems (ind + 1) x xs ++
              ('\n' :: (indentChars ind ++ [']']))))) by simp [renderJson]]
          rw [List.cons_append, parseValue_lbracket]
          obtain ⟨c, cs0, hrx, hcws, hcbr, _⟩ := renderJson_head (ind + 1) x
          obtain ⟨tailE, htE⟩ := renderElems_head (ind + 1) x xs
          rw [show ('\n' :: (indentChars (ind + 1) ++ (renderElems (ind + 1) x xs ++
              ('\n' :: (indentChars ind ++ [']']))))) ++ rest =
              ('\n' :: indentChars (ind + 1)) ++
                (renderElems (ind + 1) x xs ++
                  ('\n' :: (indentChars ind ++ (']' :: rest)))) by simp]
          rw [skipWs_ws_append _ _ (by
            intro d hd
            rcases List.mem_cons.mp hd with rfl | hd2
            · decide
            · exact indentChars_ws _ d hd2)]
          have hcons : renderElems (ind + 1) x xs ++
              ('\n' :: (indentChars ind ++ (']' :: rest))) =
              c :: (cs0 ++ (tailE ++ ('\n' :: (indentChars ind ++ (']' :: rest))))) := by
            rw [htE, hrx]
            simp
          rw [hcons, skipWs_cons _ _ hcws, arr_step fuel c _ hcbr, ← hcons]
          rw [show renderElems (ind + 1) x xs ++ ('\n' :: (indentChars ind ++ (']' :: rest))) =
            ([] : List Char) ++ (renderElems (ind + 1) x xs ++
              (('\n' :: indentChars ind) ++ (']' :: rest))) by simp]
          rw [ihE x xs (ind + 1) [] ('\n' :: indentChars ind) rest hsizeL (by simp)
            (by
              intro d hd
              rcases List.mem_cons.mp hd with rfl | hd2
              · decide
              · exact indentChars_ws _ d hd2)]
          rfl
      | obj ms =>
        cases ms with
        | nil =>
          rw [show renderJson ind (Json.obj []) = [lbrace, rbrace] by simp [renderJson]]
          simp only [List.cons_append, List.nil_append]
          rw [parseValue_lbrace]
          rw [skipWs_cons _ _ (by decide)]
          rfl
        | cons m ms2 =>
          rcases m with ⟨k, v⟩
          have hsizeM : sizeM ((k, v) :: ms2) ≤ fuel := by
            simp only [sizeJ] at hsize
            omega
          rw [show renderJson ind (Json.obj ((k, v) :: ms2)) =
            lbrace :: ('\n' :: (indentChars (ind + 1) ++ (renderMembers (ind + 1) (k, v) ms2 ++
              ('\n' :: (indentChars ind ++ [rbrace]))))) by simp [renderJson]]
          rw [List.cons_append, parseValue_lbrace]
          obtain ⟨tailM, htM⟩ := renderMembers_head (ind + 1) k v ms2
          rw [show ('\n' :: (indentChars (ind + 1) ++ (renderMembers (ind + 1) (k, v) ms2 ++
              ('\n' :: (indentChars ind ++ [rbrace]))))) ++ rest =
              ('\n' :: indentChars (ind + 1)) ++
                (renderMembers (ind + 1) (k, v) ms2 ++
                  ('\n' :: (indentChars ind ++ (rbrace :: rest)))) by simp]
          rw [skipWs_ws_append _ _ (by
            intro d hd
            rcases List.mem_cons.mp hd with rfl | hd2
            · decide
            · exact indentChars_ws _ d hd2)]
          have hcons : renderMembers (ind + 1) (k, v) ms2 ++
              ('\n' :: (indentChars ind ++ (rbrace :: rest))) =
              '"' :: (tailM ++ ('\n' :: (indentChars ind ++ (rbrace :: rest)))) := by
            rw [htM]
            simp
          rw [hcons, skipWs_cons _ _ (by decide), obj_step fuel '"' _ (by decide), ← hcons]
          rw [show renderMembers (ind + 1) (k, v) ms2 ++
              ('\n' :: (indentChars ind ++ (rbrace :: rest))) =
              renderMembers (ind + 1) (k, v) ms2 ++
                (('\n' :: indentChars ind) ++ (rbrace :: rest)) by simp]
          rw [ihM k v ms2 (ind + 1) ('\n' :: indentChars ind) rest hsizeM
            (by
              intro d hd
              rcases List.mem_cons.mp hd with rfl | hd2
              · decide
              · exact indentChars_ws _ d hd2)]
          rfl
    · -- the members statement
      intro k v ms ind wsl rest hsize hws
      have hsizev : sizeJ v ≤ fuel := by
        simp only [sizeM] at hsize
        omega
      have hmk : String.mk k.data = k := rfl
      cases ms with
      | nil =>
        rw [show renderMembers ind (k, v) [] ++ (wsl ++ rbrace :: rest) =
          '"' :: (escapeStr k.data ++ '"' :: (':' :: ' ' ::
            (renderJson ind v ++ (wsl ++ rbrace :: rest)))) by simp [renderMembers]]
        rw [parseMembers_keyColon]
        have hv : parseValue fuel (' ' :: (renderJson ind v ++ (wsl ++ rbrace :: rest))) =
            some (v, wsl ++ rbrace :: rest) := by
          rw [show (' ' :: (renderJson ind v ++ (wsl ++ rbrace :: rest))) =
            [' '] ++ (renderJson ind v ++ (wsl ++ rbrace :: rest)) by simp]
          rw [parseValue_leading_ws fuel _ _ (by intro d hd; simp at hd; subst hd; decide)]
          exact ihV v ind _ hsizev (ws_append_notNumCont wsl _ hws rfl)
        have hskipEnd : skipWs (wsl ++ rbrace :: rest) = rbrace :: rest := by
          rw [skipWs_ws_append _ _ hws, skipWs_cons _ _ (by decide)]
        rw [hv]
        simp [hskipEnd, hmk, show ¬ (rbrace = ',') by decide]
      | cons m2 ms2 =>
        rcases m2 with ⟨k2, v2⟩
        have hsizem2 : sizeM ((k2, v2) :: ms2) ≤ fuel := by
          simp only [sizeM] at hsize ⊢
          have := sizeJ_pos v
          omega
        rw [show renderMembers ind (k, v) ((k2, v2) :: ms2) ++ (wsl ++ rbrace :: rest) =
          '"' :: (escapeStr k.data ++ '"' :: (':' :: ' ' ::
            (renderJson ind v ++ (',' :: '\n' :: (indentChars ind ++
              (renderMembers ind (k2, v2) ms2 ++ (wsl ++ rbrace :: rest))))))) by
          simp [renderMembers]]
        rw [parseMembers_keyColon]
        have hv : parseValue fuel (' ' :: (renderJson ind v ++
            (',' :: '\n' :: (indentChars ind ++ (renderMembers ind (k2, v2) ms2 ++
              (wsl ++ rbrace :: rest)))))) =
            some (v, ',' :: '\n' :: (indentChars ind ++ (renderMembers ind (k2, v2) ms2 ++
              (wsl ++ rbrace :: rest)))) := by
          rw [show (' ' :: (renderJson ind v ++ (',' :: '\n' :: (indentChars ind ++
              (renderMembers ind (k2, v2) ms2 ++ (wsl ++ rbrace :: rest)))))) =
            [' '] ++ (renderJson ind v ++ (',' :: '\n' :: (indentChars ind ++
              (renderMembers ind (k2, v2) ms2 ++ (wsl ++ rbrace :: rest))))) by simp]
          rw [parseValue_leading_ws fuel _ _ (by intro d hd; simp at hd; subst hd; decide)]
          exact ihV v ind _ hsizev rfl
        have hskipc : skipWs (',' :: '\n' :: (indentChars ind ++
            (renderMembers ind (k2, v2) ms2 ++ (wsl ++ rbrace :: rest)))) =
            ',' :: '\n' :: (indentChars ind ++ (renderMembers ind (k2, v2) ms2 ++
              (wsl ++ rbrace :: rest))) :=
          skipWs_cons _ _ (by decide)
        have hskip4 : skipWs ('\n' :: (indentChars ind ++ (renderMembers ind (k2, v2) ms2 ++
            (wsl ++ rbrace :: rest)))) =
            renderMembers ind (k2, v2) ms2 ++ (wsl ++ rbrace :: rest) := by
          obtain ⟨tailM, htM⟩ := renderMembers_head ind k2 v2 ms2
          rw [show ('\n' :: (indentChars ind ++ (renderMembers ind (k2, v2) ms2 ++
              (wsl ++ rbrace :: rest)))) =
            ('\n' :: indentChars ind) ++ (renderMembers ind (k2, v2) ms2 ++
              (wsl ++ rbrace :: rest)) by simp]
          rw [skipWs_ws_append _ _ (by
            intro d hd
            rcases List.mem_cons.mp hd with rfl | hd2
            · decide
            · exact indentChars_ws _ d hd2)]
          rw [htM, List.cons_append, skipWs_cons _ _ (by decide)]
        have hm2 : parseMembers fuel (renderMembers ind (k2, v2) ms2 ++
            (wsl ++ rbrace :: rest)) = some ((k2, v2) :: ms2, rest) :=
          ihM k2 v2 ms2 ind wsl rest hsizem2 hws
        rw [hv]
        simp [hskipc, hskip4, hm2, hmk]
    · -- the elements statement
      intro x xs ind wsl0 wsl rest hsize hws0 hws
      have hsizex : sizeJ x ≤ fuel := by
        simp only [sizeL] at hsize
        omega
      rw [parseElems.eq_2]
      cases xs with
      | nil =>
        have hv : parseValue fuel (wsl0 ++ (renderElems ind x [] ++ (wsl ++ ']' :: rest))) =
            some (x, wsl ++ ']' :: rest) := by
          rw [parseValue_leading_ws fuel _ _ hws0]
          rw [show renderElems ind x [] = renderJson ind x by simp [renderElems]]
          exact ihV x ind _ hsizex (ws_append_notNumCont wsl _ hws rfl)
        have hskipEnd : skipWs (wsl ++ ']' :: rest) = ']' :: rest := by
          rw [skipWs_ws_append _ _ hws, skipWs_cons _ _ (by decide)]
        rw [hv]
        simp [hskipEnd]
      | cons y ys =>
        have hsizeys : sizeL (y :: ys) ≤ fuel := by
          simp only [sizeL] at hsize ⊢
          have := sizeJ_pos x
          omega
        have hv : parseValue fuel (wsl0 ++ (renderElems ind x (y :: ys) ++
            (wsl ++ ']' :: rest))) =
            some (x, ',' :: '\n' :: (indentChars ind ++ (renderElems ind y ys ++
              (wsl ++ ']' :: rest)))) := by
          rw [parseValue_leading_ws fuel _ _ hws0]
          rw [show renderElems ind x (y :: ys) ++ (wsl ++ ']' :: rest) =
            renderJson ind x ++ (',' :: '\n' :: (indentChars ind ++ (renderElems ind y ys ++
              (wsl ++ ']' :: rest)))) by simp [renderElems]]
          exact ihV x ind _ hsizex rfl
        have hskipc : skipWs (',' :: '\n' :: (indentChars ind ++ (renderElems ind y ys ++
            (wsl ++ ']' :: rest)))) =
            ',' :: '\n' :: (indentChars ind ++ (renderElems ind y ys ++
              (wsl ++ ']' :: rest))) :=
          skipWs_cons _ _ (by decide)
        have hE : parseElems fuel ('\n' :: (indentChars ind ++ (renderElems ind y ys ++
            (wsl ++ ']' :: rest)))) = some (y :: ys, rest) := by
          have := ihE y ys ind ('\n' :: indentChars ind) wsl rest hsizeys
            (by
              intro d hd
              rcases List.mem_cons.mp hd with rfl | hd2
              · decide
              · exact indentChars_ws _ d hd2) hws
          simpa using this
        rw [hv]
        simp [hskipc, hE]

/-- The rendering of an integer is nonempty. -/
theorem intRepr_length_pos (n : Int) : 1 ≤ (intRepr n).length := by
  obtain ⟨c, L, hcl, _, _⟩ := natRepr_head n.natAbs
  by_cases hneg : n < 0
  · simp [intRepr, hneg]
  · simp [intRepr, hneg, hcl]

/-- Node counts are bounded by rendered lengths (with the one-node slack
    used by the parser fuel). -/
theorem sizeJ_le_render (N : Nat) :
    (∀ (j : Json) (ind : Nat), sizeJ j ≤ N → sizeJ j ≤ (renderJson ind j).length) ∧
    (∀ (x : Json) (xs : List Json) (ind : Nat), sizeL (x :: xs) ≤ N →
      sizeL (x :: xs) ≤ (renderElems ind x xs).length + 1) ∧
    (∀ (k : String) (v : Json) (ms : List (String × Json)) (ind : Nat),
      sizeM ((k, v) :: ms) ≤ N →
      sizeM ((k, v) :: ms) ≤ (renderMembers ind (k, v) ms).length + 1) := by
  induction N with
  | zero =>
    refine ⟨?_, ?_, ?_⟩
    · intro j ind hsize
      exact absurd hsize (by have := sizeJ_pos j; omega)
    · intro x xs ind hsize
      exact absurd hsize (by have := sizeL_pos x xs; omega)
    · intro k v ms ind hsize
      exact absurd hsize (by have := sizeM_pos k v ms; omega)
  | succ N ih =>
    obtain ⟨ihJ, ihL, ihM⟩ := ih
    refine ⟨?_, ?_, ?_⟩
    · intro j ind hsize
      cases j with
      | null => simp [renderJson, sizeJ]
      | bool b => cases b <;> simp [renderJson, sizeJ]
      | num n =>
        have := intRepr_length_pos n
        simp [renderJson, sizeJ]
        omega
      | str s => simp [renderJson, sizeJ]
      | arr xs =>
        cases xs with
        | nil => simp [renderJson, sizeJ, sizeL]
        | cons x xs =>
          have hL : sizeL (x :: xs) ≤ N := by
            simp only [sizeJ] at hsize
            omega
          have := ihL x xs (ind + 1) hL
          simp only [renderJson, sizeJ, List.length_cons, List.length_append,
            indentChars, List.length_replicate]
          omega
      | obj ms =>
        cases ms with
        | nil => simp [renderJson, sizeJ, sizeM]
        | cons m ms2 =>
          rcases m with ⟨k, v⟩
          have hM : sizeM ((k, v) :: ms2) ≤ N := by
            simp only [sizeJ] at hsize
            omega
          have := ihM k v ms2 (ind + 1) hM
          simp only [renderJson, sizeJ, List.length_cons, List.length_append,
            indentChars, List.length_replicate]
          omega
    · intro x xs ind hsize
      cases xs with
      | nil =>
        have hx : sizeJ x ≤ N := by
          simp only [sizeL] at hsize
          omega
        have := ihJ x ind hx
        simp only [renderElems, sizeL]
        omega
      | cons y ys =>
        have hx : sizeJ x ≤ N := by
          simp only [sizeL] at hsize
          have := sizeL_pos y ys
          omega
        have hys : sizeL (y :: ys) ≤ N := by
          simp only [sizeL] at hsize ⊢
          have := sizeJ_pos x
          omega
        have h1 := ihJ x ind hx
        have h2 := ihL y ys ind hys
        simp only [renderElems, sizeL, List.length_append, List.length_cons,
          indentChars, List.length_replicate] at h2 ⊢
        omega
    · intro k v ms ind hsize
      have hv : sizeJ v ≤ N := by
        simp only [sizeM] at hsize
        omega
      have h1 := ihJ v ind hv
      cases ms with
      | nil =>
        simp only [renderMembers, sizeM, List.length_cons, List.length_append]
        omega
      | cons m2 ms2 =>
        rcases m2 with ⟨k2, v2⟩
        have hms2 : sizeM ((k2, v2) :: ms2) ≤ N := by
          simp only [sizeM] at hsize ⊢
          have := sizeJ_pos v
          omega
        have h2 := ihM k2 v2 ms2 ind hms2
        simp only [renderMembers, sizeM, List.length_cons, List.length_append,
          indentChars, List.length_replicate] at h2 ⊢
        omega

/-- Model of JSON.parse applied to the output of the modelled
    JSON.stringify: the value is recovered exactly. -/
theorem parseJson_stringify (j : Json) :
    parseJson (String.mk (renderJson 0 j)) = some j := by
  unfold parseJson
  have hdata : (String.mk (renderJson 0 j)).data = renderJson 0 j := rfl
  rw [hdata]
  have hle : sizeJ j ≤ (renderJson 0 j).length :=
    (sizeJ_le_render (sizeJ j)).1 j 0 le_rfl
  have h := (parse_render ((renderJson 0 j).length + 1)).1 j 0 [] (by omega) rfl
  rw [List.append_nil] at h
  rw [h]
  rfl

/-- A number slot decodes back from its JSON encoding exactly when its
    value survives serialization (NaN and the infinities do not). -/
theorem asJSNum_toJson (v : JSNum) (h : v.preserved = true) :
    asJSNum v.toJson = some v := by
  cases v with
  | int n => rfl
  | nullVal => rfl
  | nan => exact absurd h (by decide)
  | posInf => exact absurd h (by decide)
  | negInf => exact absurd h (by decide)

/-- Answers decode back from their JSON encoding when a numeric answer
    survives serialization. -/
theorem asAnswer_answerToJson (a : JSNum ⊕ String)
    (h : match a with | .inl v => v.preserved = true | .inr _ => True) :
    asAnswer (answerToJson a) = some a := by
  rcases a with v | s
  · cases v with
    | int n => rfl
    | nullVal => rfl
    | nan => exact absurd h (by decide)
    | posInf => exact absurd h (by decide)
    | negInf => exact absurd h (by decide)
  · rfl

/-- A part state decodes back from its JSON encoding when its number
    slots survive serialization. -/
theorem partFromJson_toJson (p : PartState) (h : p.numbersPreserved = true) :
    partFromJson p.toJson = some p := by
  rcases p with ⟨st, ans, sub, att⟩
  simp only [PartState.numbersPreserved, Bool.and_eq_true] at h
  have h1 : asJSNum att.toJson = some att := asJSNum_toJson att h.1
  rcases ans with _ | a
  · rcases sub with _ | s <;>
      simp [PartState.toJson, partFromJson, optField, jlookup, optDecode, asStr, h1]
  · rcases a with v | s2
    · have hv : v.preserved = true := by simpa using h.2
      have h2 := asAnswer_answerToJson (Sum.inl v) hv
      rcases sub with _ | s <;>
        simp [PartState.toJson, partFromJson, optField, jlookup, optDecode, asStr, h1, h2]
    · have h2 := asAnswer_answerToJson (Sum.inr s2) trivial
      rcases sub with _ | s <;>
        simp [PartState.toJson, partFromJson, optField, jlookup, optDecode, asStr, h1, h2]

/-- A day state decodes back from its JSON encoding when its number slots
    survive serialization. -/
theorem dayStateFromJson_toJson (s : DayState) (h : s.numbersPreserved = true) :
    dayStateFromJson s.toJson = some s := by
  rcases s with ⟨d, y, st, p1, p2, sa, ca, er⟩
  simp only [DayState.numbersPreserved, Bool.and_eq_true] at h
  rcases p1 with _ | q1
  · rcases p2 with _ | q2
    · rcases sa with _ | sa <;> rcases ca with _ | ca <;> rcases er with _ | er <;>
        simp [DayState.toJson, dayStateFromJson, optField, jlookup, optDecode, asStr]
    · have hq2 : partFromJson q2.toJson = some q2 :=
        partFromJson_toJson q2 (by simpa using h.2)
      rcases sa with _ | sa <;> rcases ca with _ | ca <;> rcases er with _ | er <;>
        simp [DayState.toJson, dayStateFromJson, optField, jlookup, optDecode, asStr, hq2]
  · have hq1 : partFromJson q1.toJson = some q1 :=
      partFromJson_toJson q1 (by simpa using h.1)
    rcases p2 with _ | q2
    · rcases sa with _ | sa <;> rcases ca with _ | ca <;> rcases er with _ | er <;>
        simp [DayState.toJson, dayStateFromJson, optField, jlookup, optDecode, asStr, hq1]
    · have hq2 : partFromJson q2.toJson = some q2 :=
        partFromJson_toJson q2 (by simpa using h.2)
      rcases sa with _ | sa <;> rcases ca with _ | ca <;> rcases er with _ | er <;>
        simp [DayState.toJson, dayStateFromJson, optField, jlookup, optDecode, asStr,
          hq1, hq2]

/-- Loading right after saving always hands the saved state's JSON
    encoding to the decoder: the store lookup and the parse of the
    freshly written file never fail. -/
theorem loadDayState_saveDayState_decode (day : Int) (st : DayState) (store : Store) :
    loadDayState day (saveDayState day st store) = dayStateFromJson st.toJson := by
  unfold loadDayState saveDayState stringifyDayState
  simp [parseJson_stringify]

/-- Saving a day state and loading the same day returns the saved state
    when its number slots survive serialization. -/
theorem loadDayState_saveDayState (day : Int) (st : DayState) (store : Store)
    (h : st.numbersPreserved = true) :
    loadDayState day (saveDayState day st store) = some st :=
  (loadDayState_saveDayState_decode day st store).trans (dayStateFromJson_toJson st h)

/-- Saving one day leaves every other day's file unchanged. -/
theorem saveDayState_other (day k : Int) (st : DayState) (store : Store)
    (h : ¬ k = day) : saveDayState day st store k = store k := by
  unfold saveDayState
  simp [h]

/-- C10 as stated is false of the program: a day state whose part-1
    attempts slot holds NaN — a value the TypeScript number type admits —
    is serialized by JSON.stringify with null in that slot, so saving it
    and loading the same day returns a state carrying null there, not the
    state that was saved. -/
theorem c10_counterexample :
    loadDayState 3
      (saveDayState 3
        { day := 3, year := 2025, status := "in_progress",
          part1 := some { status := "pending", attempts := JSNum.nan } }
        (fun _ => none)) =
      some { day := 3, year := 2025, status := "in_progress",
             part1 := some { status := "pending", attempts := JSNum.nullVal } } ∧
    ({ day := 3, year := 2025, status := "in_progress",
       part1 := some { status := "pending", attempts := JSNum.nullVal } } : DayState) ≠
      { day := 3, year := 2025, status := "in_progress",
        part1 := some { status := "pending", attempts := JSNum.nan } } := by
  constructor
  · have hj : dayStateFromJson
        (DayState.toJson
          { day := 3, year := 2025, status := "in_progress",
            part1 := some { status := "pending", attempts := JSNum.nan } }) =
        some { day := 3, year := 2025, status := "in_progress",
               part1 := some { status := "pending", attempts := JSNum.nullVal } } := by
      simp [DayState.toJson, PartState.toJson, dayStateFromJson, partFromJson,
        optField, jlookup, optDecode, asStr, asAnswer, asJSNum, JSNum.toJson]
    exact (loadDayState_saveDayState_decode 3 _ _).trans hj
  · decide

/-- C10, corrected: saving a state with saveDayState and loading it back
    with loadDayState returns exactly the state saved whenever every
    number slot of the state holds a finite integer value or null — in
    particular for every state this program itself writes; a state with
    NaN or an infinity in a number slot is serialized with null there and
    does not load back equal. -/
theorem c10_amended_save_load_roundtrip (day : Int) (state : DayState) (store : Store)
    (h : state.numbersPreserved = true) :
    loadDayState day (saveDayState day state store) = some state :=
  loadDayState_saveDayState day state store h

/-- Witness for the amended C10 on a concrete day-3 state. -/
theorem c10_amended_save_load_roundtrip_witness :
    DayState.numbersPreserved
      { day := 3, year := 2025, status := "pending",
        part1 := some { status := "completed", answer := some (.inl 42),
                        attempts := 1 } } = true ∧
    loadDayState 3
      (saveDayState 3
        { day := 3, year := 2025, status := "pending",
          part1 := some { status := "completed", answer := some (.inl 42),
                          attempts := 1 } }
        (fun _ => none)) =
      some { day := 3, year := 2025, status := "pending",
             part1 := some { status := "completed", answer := some (.inl 42),
                             attempts := 1 } } :=
  ⟨by decide, c10_amended_save_load_roundtrip 3 _ _ (by decide)⟩

/-- The tail of main() always ends in a finished outcome (exit 0), for
    any orchestrator behaviour. -/
theorem finishRun_finished (day : Int) (now : String) (ext : Store → ExtResult)
    (store : Store) :
    ∃ b, (finishRun day now ext store).1 = .finished b := by
  unfold finishRun
  by_cases h : (ext store).subtype = "success"
  · rw [if_pos h]
    cases loadDayState day (ext store).store <;> exact ⟨true, rfl⟩
  · rw [if_neg h]
    cases loadDayState day (ext store).store <;> exact ⟨false, rfl⟩

/-- C2: when the selected day's persisted state has status completed and
    no force flag is given, the controller returns the already-completed
    skip (exit code 0), performs no submission call, and leaves the store
    unchanged; invoking it twice in a row therefore performs no
    submission at all. -/
theorem c2_completed_skip (args : CLIArgs) (year month today day : Int)
    (now : String) (store : Store) (ext ext2 : Store → ExtResult) (st : DayState)
    (hsel : selectDay args.day year month today = .run day)
    (hload : loadDayState day store = some st)
    (hst : st.status = "completed") (hforce : args.force = false) :
    runMain true true args year month today now store ext =
      (.skipCompleted day, store, 0) ∧
    exitCode (.skipCompleted day) = 0 ∧
    runMain true true args year month today now
      ((runMain true true args year month today now store ext).2.1) ext2 =
      (.skipCompleted day, store, 0) := by
  have hinit : initializeDayState day now store = (st, store) := by
    unfold initializeDayState
    rw [hload]
  have h1 : runMain true true args year month today now store ext =
      (.skipCompleted day, store, 0) := by
    unfold runMain
    rw [hsel]
    simp [hinit, hst, hforce]
  refine ⟨h1, rfl, ?_⟩
  rw [h1]
  have h2 : runMain true true args year month today now store ext2 =
      (.skipCompleted day, store, 0) := by
    unfold runMain
    rw [hsel]
    simp [hinit, hst, hforce]
  exact h2

/-- Witness for C2 on a concrete completed day-3 state. -/
theorem c2_completed_skip_witness :
    runMain true true { day := some (some 3), dryRun := false, debug := false, force := false }
      2025 12 3 "t"
      (saveDayState 3 { day := 3, year := 2025, status := "completed" } (fun _ => none))
      (fun s => ⟨s, "success", 1⟩) =
      (.skipCompleted 3,
        saveDayState 3 { day := 3, year := 2025, status := "completed" } (fun _ => none), 0) :=
  (c2_completed_skip _ 2025 12 3 3 "t" _ (fun s => ⟨s, "success", 1⟩)
    (fun s => ⟨s, "success", 1⟩) { day := 3, year := 2025, status := "completed" }
    (by decide) (loadDayState_saveDayState 3 _ _ (by decide)) rfl rfl).1

/-- When loading the selected day yields nothing, main() creates a fresh
    pending state for the day, saves it, and proceeds to a finished
    outcome. -/
theorem runMain_fresh_pending (args : CLIArgs) (year month today day : Int)
    (now : String) (store : Store) (ext : Store → ExtResult)
    (hsel : selectDay args.day year month today = .run day)
    (hload : loadDayState day store = none) :
    (initializeDayState day now store).1.status = "pending" ∧
    (initializeDayState day now store).1.day = day ∧
    (initializeDayState day now store).2 =
      saveDayState day (initializeDayState day now store).1 store ∧
    ∃ b, (runMain true true args year month today now store ext).1 = .finished b := by
  have hinit : initializeDayState day now store =
      ({ day := day, year := AOC_YEAR, status := "pending", started_at := some now },
        saveDayState day
          { day := day, year := AOC_YEAR, status := "pending", started_at := some now }
          store) := by
    unfold initializeDayState
    rw [hload]
  refine ⟨by rw [hinit], by rw [hinit], by rw [hinit], ?_⟩
  by_cases hforce : args.force
  · have hrm : runMain true true args year month today now store ext =
        finishRun day now ext
          (saveDayState day
            { day := day, year := AOC_YEAR, status := "in_progress", started_at := some now }
            (saveDayState day
              { day := day, year := AOC_YEAR, status := "pending", started_at := some now }
              store)) := by
      unfold runMain
      rw [hsel]
      simp [hinit, hforce]
    rw [hrm]
    exact finishRun_finished _ _ _ _
  · have hrm : runMain true true args year month today now store ext =
        finishRun day now ext
          (saveDayState day
            { day := day, year := AOC_YEAR, status := "pending", started_at := some now }
            store) := by
      unfold runMain
      rw [hsel]
      simp [hinit, hforce]
    rw [hrm]
    exact finishRun_finished _ _ _ _

/-- C7: a selected day with no persisted state on disk is treated as
    pending: a fresh state with status pending for that day is created
    and saved, and the controller proceeds with the run (a finished
    outcome) instead of reporting an error. -/
theorem c7_missing_state_pending (args : CLIArgs) (year month today day : Int)
    (now : String) (store : Store) (ext : Store → ExtResult)
    (hsel : selectDay args.day year month today = .run day)
    (hmiss : store day = none) :
    (initializeDayState day now store).1.status = "pending" ∧
    (initializeDayState day now store).1.day = day ∧
    (initializeDayState day now store).2 =
      saveDayState day (initializeDayState day now store).1 store ∧
    ∃ b, (runMain true true args year month today now store ext).1 = .finished b := by
  have hload : loadDayState day store = none := by
    unfold loadDayState
    rw [hmiss]
  exact runMain_fresh_pending args year month today day now store ext hsel hload

/-- Witness for C7 on an empty store. -/
theorem c7_missing_state_pending_witness :
    (initializeDayState 3 "t" (fun _ => none)).1.status = "pending" ∧
    ∃ b, (runMain true true
      { day := some (some 3), dryRun := false, debug := false, force := false }
      2025 12 3 "t" (fun _ => none) (fun s => ⟨s, "success", 0⟩)).1 = .finished b := by
  have h := c7_missing_state_pending
    { day := some (some 3), dryRun := false, debug := false, force := false }
    2025 12 3 3 "t" (fun _ => none) (fun s => ⟨s, "success", 0⟩) (by decide) rfl
  exact ⟨h.1, h.2.2.2⟩

/-- C5 as stated is false: with a state file present on day 3 that is not
    valid JSON, the controller does not exit non-zero; it proceeds as if
    the day had no prior state, creating a fresh pending state and
    finishing the run with exit code 0. -/
theorem c5_counterexample :
    (fun k => if k = (3 : Int) then some "not json" else none : Store) 3 =
      some "not json" ∧
    parseJson "not json" = none ∧
    loadDayState 3 (fun k => if k = (3 : Int) then some "not json" else none) = none ∧
    (initializeDayState 3 "t"
      (fun k => if k = (3 : Int) then some "not json" else none)).1.status = "pending" ∧
    ∃ b, (runMain true true
        { day := some (some 3), dryRun := false, debug := false, force := false }
        2025 12 3 "t" (fun k => if k = (3 : Int) then some "not json" else none)
        (fun s => ⟨s, "success", 0⟩)).1 = .finished b ∧
      exitCode (.finished b) = 0 := by
  have hload : loadDayState 3 (fun k => if k = (3 : Int) then some "not json" else none) =
      none := rfl
  have h := runMain_fresh_pending
    { day := some (some 3), dryRun := false, debug := false, force := false }
    2025 12 3 3 "t" (fun k => if k = (3 : Int) then some "not json" else none)
    (fun s => ⟨s, "success", 0⟩) (by decide) hload
  obtain ⟨b, hb⟩ := h.2.2.2
  exact ⟨rfl, rfl, hload, h.1, b, hb, rfl⟩

/-- C5 amended: a state file that exists but cannot be parsed is treated
    exactly like a missing one: loadDayState catches the failure and
    returns nothing, and the controller initializes a fresh pending state
    for the day and proceeds to a finished run (exit code 0) rather than
    exiting non-zero. -/
theorem c5_amended_corrupt_treated_missing (args : CLIArgs)
    (year month today day : Int) (content now : String) (store : Store)
    (ext : Store → ExtResult)
    (hsel : selectDay args.day year month today = .run day)
    (hfile : store day = some content) (hbad : parseJson content = none) :
    loadDayState day store = none ∧
    (initializeDayState day now store).1.status = "pending" ∧
    ∃ b, (runMain true true args year month today now store ext).1 = .finished b ∧
      exitCode (.finished b) = 0 := by
  have hload : loadDayState day store = none := by
    unfold loadDayState
    rw [hfile]
    simp [hbad]
  have h := runMain_fresh_pending args year month today day now store ext hsel hload
  obtain ⟨b, hb⟩ := h.2.2.2
  exact ⟨hload, h.1, b, hb, rfl⟩

/-- Witness for the amended C5 on a concrete corrupt file. -/
theorem c5_amended_corrupt_treated_missing_witness :
    loadDayState 4 (fun k => if k = (4 : Int) then some "corrupt" else none) = none ∧
    (initializeDayState 4 "t"
      (fun k => if k = (4 : Int) then some "corrupt" else none)).1.status = "pending" := by
  have h := c5_amended_corrupt_treated_missing
    { day := some (some 4), dryRun := false, debug := false, force := false }
    2025 12 4 4 "corrupt" "t" (fun k => if k = (4 : Int) then some "corrupt" else none)
    (fun s => ⟨s, "success", 0⟩) (by decide) rfl rfl
  exact ⟨h.1, h.2.1⟩

/-- C4 amended: when the orchestrator result message has subtype success,
    the controller sets the day status to completed unconditionally: it
    reloads whatever state the run left on disk, overwrites its status
    with completed, records the completion time and saves it, leaving
    both part states exactly as they were — completion of the parts is
    not checked. -/
theorem c4_amended_success_marks_completed (day : Int) (now : String)
    (ext : Store → ExtResult) (store : Store) (st2 : DayState)
    (hsub : (ext store).subtype = "success")
    (hload : loadDayState day (ext store).store = some st2) :
    finishRun day now ext store =
      (.finished true, saveDayState day (markCompleted st2 now) (ext store).store,
        (ext store).submissions) ∧
    (markCompleted st2 now).status = "completed" ∧
    (markCompleted st2 now).part1 = st2.part1 ∧
    (markCompleted st2 now).part2 = st2.part2 := by
  refine ⟨?_, rfl, rfl, rfl⟩
  unfold finishRun
  rw [if_pos hsub, hload]

/-- Witness for the amended C4 on a state whose first part is pending. -/
theorem c4_amended_success_marks_completed_witness :
    finishRun 3 "t" (fun s => ⟨s, "success", 0⟩)
      (saveDayState 3
        { day := 3, year := 2025, status := "in_progress",
          part1 := some { status := "pending", attempts := 0 } }
        (fun _ => none)) =
      (.finished true,
        saveDayState 3
          (markCompleted
            { day := 3, year := 2025, status := "in_progress",
              part1 := some { status := "pending", attempts := 0 } } "t")
          (saveDayState 3
            { day := 3, year := 2025, status := "in_progress",
              part1 := some { status := "pending", attempts := 0 } }
            (fun _ => none)), 0) :=
  (c4_amended_success_marks_completed 3 "t" (fun s => ⟨s, "success", 0⟩)
    (saveDayState 3
      { day := 3, year := 2025, status := "in_progress",
        part1 := some { status := "pending", attempts := 0 } }
      (fun _ => none))
    { day := 3, year := 2025, status := "in_progress",
      part1 := some { status := "pending", attempts := 0 } }
    rfl (loadDayState_saveDayState 3 _ _ (by decide))).1

/-- C4 as stated is false: after a successful orchestrator run on a day
    whose persisted part 1 is still pending, the state saved by the
    controller has day status completed while part 1 is not completed. -/
theorem c4_counterexample :
    ∃ st : DayState,
      loadDayState 3
        ((runMain true true
          { day := some (some 3), dryRun := false, debug := false, force := false }
          2025 12 3 "t"
          (saveDayState 3
            { day := 3, year := 2025, status := "in_progress",
              part1 := some { status := "pending", attempts := 0 } }
            (fun _ => none))
          (fun s => ⟨s, "success", 0⟩)).2.1) = some st ∧
      st.status = "completed" ∧
      ∃ p, st.part1 = some p ∧ ¬ p.status = "completed" := by
  have hload0 : loadDayState 3
      (saveDayState 3
        { day := 3, year := 2025, status := "in_progress",
          part1 := some { status := "pending", attempts := 0 } }
        (fun _ => none)) =
      some { day := 3, year := 2025, status := "in_progress",
             part1 := some { status := "pending", attempts := 0 } } :=
    loadDayState_saveDayState 3 _ _ (by decide)
  have hinit : initializeDayState 3 "t"
      (saveDayState 3
        { day := 3, year := 2025, status := "in_progress",
          part1 := some { status := "pending", attempts := 0 } }
        (fun _ => none)) =
      ({ day := 3, year := 2025, status := "in_progress",
          part1 := some { status := "pending", attempts := 0 } },
        saveDayState 3
          { day := 3, year := 2025, status := "in_progress",
            part1 := some { status := "pending", attempts := 0 } }
          (fun _ => none)) := by
    rw [initializeDayState.eq_def]
    rw [hload0]
  have hrm : runMain true true
      { day := some (some 3), dryRun := false, debug := false, force := false }
      2025 12 3 "t"
      (saveDayState 3
        { day := 3, year := 2025, status := "in_progress",
          part1 := some { status := "pending", attempts := 0 } }
        (fun _ => none))
      (fun s => ⟨s, "success", 0⟩) =
      finishRun 3 "t" (fun s => ⟨s, "success", 0⟩)
        (saveDayState 3
          { day := 3, year := 2025, status := "in_progress",
            part1 := some { status := "pending", attempts := 0 } }
          (fun _ => none)) := by
    unfold runMain
    rw [show selectDay (some (some 3)) 2025 12 3 = .run 3 by decide]
    simp [hinit]
  have hfin := c4_amended_success_marks_completed 3 "t" (fun s => ⟨s, "success", 0⟩)
    (saveDayState 3
      { day := 3, year := 2025, status := "in_progress",
        part1 := some { status := "pending", attempts := 0 } }
      (fun _ => none))
    { day := 3, year := 2025, status := "in_progress",
      part1 := some { status := "pending", attempts := 0 } }
    rfl hload0
  refine ⟨markCompleted
    { day := 3, year := 2025, status := "in_progress",
      part1 := some { status := "pending", attempts := 0 } } "t", ?_,
    rfl, { status := "pending", attempts := 0 }, rfl, by decide⟩
  rw [hrm, hfin.1]
  exact loadDayState_saveDayState 3 _ _ (by decide)
